import Mathlib

/-!
Verification development for the superb-ai-curate Python client library.

The development shallowly embeds the object-materialization layer
(util.convert_to_superb_ai_object, SuperbAIObject.construct_from_dict,
SuperbAIObject.load_from_dict, AnnotationType.load_from_raw_data,
SuperbAIObject.to_dict_deep), the bulk-upload batching loop
(Image.__upload_local_images), the per-asset retry loop
(Image.__upload_asset, http_client.calculate_backoff), the job polling
loop (Job.wait_until_complete), endpoint resolution
(SuperbAIObject.get_endpoint and the APIResource operations), the HTTP
status-to-exception mapping (APIRequestor.specific_api_error,
APIRequestor.interpret_response) and the instance delete operation
(DeleteResource.delete).

Python values are modelled by the inductive type V below: JSON-like
trees where a plain dict and a SuperbAIObject instance (a dict subclass
carrying a class tag) are distinct constructors.  Recursive procedures
of the source that are not structurally recursive are given an explicit
fuel argument; theorems are stated conditionally on the computation
returning a value rather than running out of fuel, with closed witnesses
showing the computations do complete on concrete inputs.
-/

namespace SpbCurate

/-- Exceptions of the SDK relevant to the embedded code paths
(spb_curate/error.py plus Python built-in exceptions). -/
inductive Err where
  | validation
  | typeErr
  | keyErr
  | attributeErr
  | superbAI
  | retryable
  | fuel
  deriving DecidableEq, Repr

/-- The concrete SuperbAIObject subclasses taking part in
materialization: the generic base class, the registry classes of
object_mapping.py and the annotation-geometry classes of
curate/model/annotation_types.py. -/
inductive PyCls where
  | generic
  | annotation
  | dataset
  | image
  | job
  | slice
  | point
  | contour
  | face
  | boundingBox
  | keypointState
  | keypoint
  | edge
  | keypoints
  | path
  | polygon
  | polyline
  | rotatedBox
  | cuboid2D
  | category
  deriving DecidableEq, Repr

/-- Python values flowing through the materializer: None, booleans,
integers, strings, lists, plain dicts, and SuperbAIObject instances
(dict subclasses tagged with their concrete class). -/
inductive V where
  | null
  | bool (b : Bool)
  | int (n : Int)
  | str (s : String)
  | list (xs : List V)
  | dict (fs : List (String × V))
  | tdo (c : PyCls) (fs : List (String × V))
  deriving Repr

abbrev Fields := List (String × V)

abbrev Res (α : Type) := Except Err α

/-- Assoc-list lookup modelling Python dict indexing (keys are unique in
any dict arising from the source). -/
def lookupF : Fields → String → Option V
  | [], _ => none
  | (k, v) :: fs, key => if k = key then some v else lookupF fs key

/-- Python dict.get with a default. -/
def getF (fs : Fields) (key : String) (dflt : V) : V :=
  (lookupF fs key).getD dflt

/-- Python key-containment test. -/
def hasKeyF (fs : Fields) (key : String) : Bool :=
  (lookupF fs key).isSome

/-- Python dict assignment: replace the value in place when the key
exists, otherwise append the new pair. -/
def setF : Fields → String → V → Fields
  | [], key, v => [(key, v)]
  | (k, w) :: fs, key, v =>
      if k = key then (k, v) :: fs else (k, w) :: setF fs key v

/-- Python del on a dict key. -/
def delF : Fields → String → Fields
  | [], _ => []
  | (k, w) :: fs, key => if k = key then fs else (k, w) :: delF fs key

/-- Python truthiness of the values the embedded code tests with
a bare if: None, False, 0, empty string, empty list and empty dict are
falsy. -/
def truthy : V → Bool
  | V.null => false
  | V.bool b => b
  | V.int n => n != 0
  | V.str s => s ≠ ""
  | V.list xs => !xs.isEmpty
  | V.dict fs => !fs.isEmpty
  | V.tdo _ fs => !fs.isEmpty

mutual

/-- Structural equality on V (helper for pyEq; used after
normalization). -/
def beqV : V → V → Bool
  | V.null, V.null => true
  | V.bool a, V.bool b => a = b
  | V.int a, V.int b => a = b
  | V.str a, V.str b => a = b
  | V.list xs, V.list ys => beqVL xs ys
  | V.dict fs, V.dict gs => beqVF fs gs
  | V.tdo c fs, V.tdo c' gs => c = c' && beqVF fs gs
  | _, _ => false
termination_by structural a => a

def beqVL : List V → List V → Bool
  | [], [] => true
  | x :: xs, y :: ys => beqV x y && beqVL xs ys
  | _, _ => false
termination_by structural a => a

def beqVF : Fields → Fields → Bool
  | [], [] => true
  | (k, v) :: fs, (l, w) :: gs => k = l && beqV v w && beqVF fs gs
  | _, _ => false
termination_by structural a => a

end

/-- Lexicographic codepoint comparison of strings (a computable
stand-in for string order used only to canonicalize key order). -/
def charsLe : List Char → List Char → Bool
  | [], _ => true
  | _ :: _, [] => false
  | c :: cs, d :: ds =>
      if c.toNat < d.toNat then true
      else if d.toNat < c.toNat then false
      else charsLe cs ds

def strLe (a b : String) : Bool := charsLe a.data b.data

/-- Insert a key-value pair into an assoc list sorted by key. -/
def insertSorted (k : String) (v : V) : Fields → Fields
  | [] => [(k, v)]
  | (l, w) :: rest =>
      if strLe k l then (k, v) :: (l, w) :: rest
      else (l, w) :: insertSorted k v rest

/-- Sort an assoc list by key (insertion sort). -/
def sortF : Fields → Fields
  | [] => []
  | (k, v) :: fs => insertSorted k v (sortF fs)

mutual

/-- Normalization underlying Python dict equality: a SuperbAIObject
compares as its backing dict (dict.__eq__ ignores the subclass), and
dict comparison ignores key order. -/
def normV : V → V
  | V.list xs => V.list (normL xs)
  | V.dict fs => V.dict (sortF (normF fs))
  | V.tdo _ fs => V.dict (sortF (normF fs))
  | v => v
termination_by structural a => a

def normL : List V → List V
  | [] => []
  | x :: xs => normV x :: normL xs
termination_by structural a => a

def normF : Fields → Fields
  | [] => []
  | (k, v) :: fs => (k, normV v) :: normF fs
termination_by structural a => a

end

/-- Python structural equality as used by the library's round-trip
checks: dicts compare by key set and values, a SuperbAIObject compares
equal to a plain dict with the same contents. -/
def pyEq (a b : V) : Bool := beqV (normV a) (normV b)

/-! ### Bulk upload batching (curate/api/curate.py, Image.__upload_local_images)

The loop walks the images in input order keeping a running byte total
and the list of file sizes of the current batch; each asset is appended
to the current batch and the batch is flushed when the running total has
reached bulk_upload_bytes_max, the count equals bulk_upload_object_max,
or the asset is the last one.  An asset larger than
UPLOAD_IMAGE_FILE_BYTES_MAX raises a ValidationError when it is
reached. -/

def UPLOAD_IMAGE_FILE_BYTES_MAX : Nat := 20000000

def bulkUploadBytesMaxDefault : Nat := 256000000

def bulkUploadObjectMaxDefault : Nat := 100

/-- One step of the batching loop: sizes still to process, the sizes of
the current (unflushed) batch, and the flushed batches so far in
reverse order. -/
def uploadBatchesGo (maxBytes maxObjects fileMax : Nat) :
    List Nat → List Nat → List (List Nat) → Res (List (List Nat))
  | [], _, acc => Except.ok acc.reverse
  | s :: rest, cur, acc =>
      if fileMax < s then Except.error Err.validation
      else
        let cur' := cur ++ [s]
        if maxBytes ≤ cur'.sum ∨ cur'.length = maxObjects ∨ rest = [] then
          uploadBatchesGo maxBytes maxObjects fileMax rest [] (cur' :: acc)
        else
          uploadBatchesGo maxBytes maxObjects fileMax rest cur' acc

/-- The batches of presigned-URL upload requests issued by
Image.__upload_local_images for local assets of the given sizes. -/
def uploadBatches (sizes : List Nat) (maxBytes maxObjects fileMax : Nat) :
    Res (List (List Nat)) :=
  uploadBatchesGo maxBytes maxObjects fileMax sizes [] []

/-! ### Per-asset upload retry (curate/api/curate.py, Image.__upload_asset
and http_client.py) -/

def MAX_RETRY_COUNT : Nat := 2

def BACKOFF_FACTOR : Nat := 1

def STATUS_FORCE_LIST : List Int := [500, 502, 503, 504]

/-- http_client.calculate_backoff. -/
def calculateBackoff (attempt : Nat) (factor : Nat) : Nat :=
  factor * 2 ^ (attempt - 1)

/-- Outcome of one PUT attempt against the presigned URL: an HTTP
status code, or a transport-level network error (aiohttp.ClientError). -/
inductive UploadOutcome where
  | status (code : Int)
  | netError
  deriving DecidableEq, Repr

/-- The retry loop of Image.__upload_asset, driven by the script of
outcomes of successive attempts.  Returns the list of backoff sleeps
performed before succeeding, or the raised error.  The source loops
while attempt < MAX_RETRY_COUNT; a 200 returns, a status in
STATUS_FORCE_SET or a network error increments the attempt counter and
either sleeps calculate_backoff(attempt) or, when the budget is
exhausted, raises RetryableError; any other status raises
SuperbAIError. -/
def uploadAssetGo : List UploadOutcome → Nat → Res (List Nat)
  | script, attempt =>
      if MAX_RETRY_COUNT ≤ attempt then Except.ok []
      else
        match script with
        | [] => Except.error Err.fuel
        | UploadOutcome.status code :: rest =>
            if code = 200 then Except.ok []
            else if code ∈ STATUS_FORCE_LIST then
              if attempt + 1 < MAX_RETRY_COUNT then
                (uploadAssetGo rest (attempt + 1)).map
                  (fun sleeps => calculateBackoff (attempt + 1) BACKOFF_FACTOR :: sleeps)
              else Except.error Err.retryable
            else Except.error Err.superbAI
        | UploadOutcome.netError :: rest =>
            if attempt + 1 < MAX_RETRY_COUNT then
              (uploadAssetGo rest (attempt + 1)).map
                (fun sleeps => calculateBackoff (attempt + 1) BACKOFF_FACTOR :: sleeps)
            else Except.error Err.retryable

/-- Image.__upload_asset starting at attempt zero. -/
def uploadAsset (script : List UploadOutcome) : Res (List Nat) :=
  uploadAssetGo script 0

/-! ### Job polling (curate/api/job.py, Job.wait_until_complete)

The loop breaks when the status is FAILED or COMPLETE, otherwise sleeps
min(timeout, 2) seconds if that is positive, subtracts the fixed
2-second frequency from the remaining budget, refreshes the job and
repeats.  The successive refresh results are supplied as a list; when it
is exhausted the status stays unchanged. -/

def waitUntilComplete (status : String) (refreshes : List String)
    (timeout : Int) : List Int × String :=
  if status = "FAILED" ∨ status = "COMPLETE" then ([], status)
  else
    if h : min timeout 2 ≤ 0 then ([], status)
    else
      let next := match refreshes with
        | [] => (status, ([] : List String))
        | s :: rest => (s, rest)
      let r := waitUntilComplete next.1 next.2 (timeout - 2)
      (min timeout 2 :: r.1, r.2)
termination_by (timeout + 1).toNat
decreasing_by omega

/-! ### Endpoint resolution and transport-backed operations
(abstract/superb_ai_object.py get_endpoint / get_endpoint_method,
abstract/api/resource.py) -/

/-- The _endpoints tables of the resource classes (curate/api/curate.py
and curate/api/job.py). -/
def endpointTable (c : PyCls) : List (String × String) :=
  match c with
  | PyCls.annotation =>
      [("create", "/curate/dataset-core/datasets/{dataset_id}/images/{image_id}/annotations/"),
       ("delete", "/curate/dataset-core/datasets/{dataset_id}/annotations/{id}"),
       ("fetch", "/curate/dataset-query/datasets/{dataset_id}/images/{image_id}/annotations/{id}"),
       ("modify", "/curate/dataset-core/datasets/{dataset_id}/annotations/{id}/metadata"),
       ("paginate", "/curate/dataset-query/datasets/{dataset_id}/annotations/_search")]
  | PyCls.dataset =>
      [("create", "/curate/dataset-core/datasets/"),
       ("delete", "/curate/dataset-core/datasets/{id}/"),
       ("fetch", "/curate/dataset-query/datasets/{id}/"),
       ("paginate", "/curate/dataset-query/datasets/"),
       ("modify", "/curate/dataset-core/datasets/{id}")]
  | PyCls.image =>
      [("bulk_asset_upload", "/curate/batch/assets/bulk/"),
       ("delete", "/curate/dataset-core/datasets/{dataset_id}/images/{id}/"),
       ("fetch", "/curate/dataset-query/datasets/{dataset_id}/images/{id}/"),
       ("paginate", "/curate/dataset-query/datasets/{dataset_id}/images/_search"),
       ("modify", "/curate/dataset-core/datasets/{dataset_id}/images/{id}/metadata")]
  | PyCls.job =>
      [("bulk_create", "/curate/batch/jobs/"),
       ("bulk_create_upload", "/curate/batch/params/"),
       ("fetch", "/curate/batch/jobs/{id}/"),
       ("paginate", "/curate/batch/jobs/")]
  | PyCls.slice =>
      [("create", "/curate/dataset-core/datasets/{dataset_id}/slices/"),
       ("delete", "/curate/dataset-core/datasets/{dataset_id}/slices/{id}/"),
       ("fetch", "/curate/dataset-query/datasets/{dataset_id}/slices/{id}/"),
       ("paginate", "/curate/dataset-query/datasets/{dataset_id}/slices/"),
       ("modify", "/curate/dataset-core/datasets/{dataset_id}/slices/{id}/")]
  | _ => []

/-- The _endpoints_method overrides. -/
def endpointMethodTable (c : PyCls) : List (String × String) :=
  match c with
  | PyCls.annotation => [("paginate", "post")]
  | PyCls.dataset => [("modify", "patch")]
  | PyCls.image => [("paginate", "post")]
  | PyCls.slice => [("modify", "patch")]
  | _ => []

/-- The membership test v in (empty string, None) applied by
get_endpoint to each path-parameter value. -/
def isEmptyParam : V → Bool
  | V.str s => s = ""
  | V.null => true
  | _ => false

/-- Rendering of a path-parameter value into the URL (str.format). -/
def formatParam : V → String
  | V.str s => s
  | V.int n => toString n
  | V.bool b => if b then "True" else "False"
  | _ => ""

/-- str.format substitution of the named parameters into the URL
template. -/
def formatTemplate (url : String) (ps : List (String × V)) : String :=
  ps.foldl (fun u kv => u.replace ("\x7b" ++ kv.1 ++ "\x7d") (formatParam kv.2)) url

/-- SuperbAIObject.get_endpoint: fetch the template by name; when both
the template and a non-empty parameter dict are present, raise
ValidationError as soon as any parameter value is None or the empty
string, else substitute.  A missing template returns None without
error. -/
def getEndpoint (c : PyCls) (name : String)
    (params : Option (List (String × V))) : Res (Option String) :=
  match (endpointTable c).lookup name with
  | none => Except.ok none
  | some url =>
      match params with
      | none => Except.ok (some url)
      | some ps =>
          if ps.isEmpty then Except.ok (some url)
          else if ps.any (fun kv => isEmptyParam kv.2) then
            Except.error Err.validation
          else Except.ok (some (formatTemplate url ps))

/-- SuperbAIObject.get_endpoint_method: the per-class override when
declared, else the supplied default; raises ValidationError when
neither exists. -/
def getEndpointMethod (c : PyCls) (name : String) (dflt : Option String) :
    Res String :=
  match (endpointMethodTable c).lookup name, dflt with
  | some m, _ => Except.ok m
  | none, some d => Except.ok d
  | none, none => Except.error Err.validation

/-- A request handed to the transport. -/
structure Request where
  method : String
  url : String
  deriving DecidableEq, Repr

/-- The shared shape of the APIResource operations (fetch / create /
modify / delete / paginate): resolve the endpoint URL and method first,
then invoke the transport exactly once.  The returned list records the
transport invocations actually performed; the remote argument supplies
the transport's answer. -/
def operationTrace (c : PyCls) (opName : String) (defaultMethod : String)
    (endpointParams : Option (List (String × V))) (remote : Res V) :
    List Request × Res V :=
  match getEndpoint c opName endpointParams with
  | Except.error e => ([], Except.error e)
  | Except.ok urlOpt =>
      match getEndpointMethod c opName (some defaultMethod) with
      | Except.error e => ([], Except.error e)
      | Except.ok m =>
          ([{ method := m, url := urlOpt.getD "None" }], remote)

/-- DeleteResource.delete on an instance: run _cls_delete (endpoint
resolution followed by the remote request) and only on success set the
local id field to None.  Returns the instance's fields after the call
together with the outcome. -/
def deleteRun (c : PyCls) (fs : Fields)
    (endpointParams : Option (List (String × V))) (remote : Res V) :
    Fields × Res Unit :=
  match (operationTrace c "delete" "delete" endpointParams remote).2 with
  | Except.error e => (fs, Except.error e)
  | Except.ok _ => (setF fs "id" V.null, Except.ok ())

/-! ### HTTP status-to-exception mapping (api_requestor.py) -/

/-- The exception classes raised by APIRequestor for non-2xx responses
(error.py).  QuerySyntaxError is a subclass of BadRequestError. -/
inductive ApiErr where
  | badRequest
  | querySyntax
  | authentication
  | notFound
  | conflict
  | tooManyRequests
  | system
  | api
  deriving DecidableEq, Repr

/-- APIRequestor.specific_api_error: choose the exception from the
status code, with the QUERY_SYNTAX sub-kind for 400 responses carrying
that error tag. -/
def specificApiError (rcode : Int) (errorType : String) : ApiErr :=
  if rcode = 400 then
    if errorType = "QUERY_SYNTAX" then ApiErr.querySyntax else ApiErr.badRequest
  else if rcode = 401 then ApiErr.authentication
  else if rcode = 404 then ApiErr.notFound
  else if rcode = 409 then ApiErr.conflict
  else if rcode = 429 then ApiErr.tooManyRequests
  else if rcode = 500 then ApiErr.system
  else ApiErr.api

/-- APIRequestor._should_handle_code_as_error. -/
def shouldHandleCodeAsError (rcode : Int) : Bool :=
  !(decide (200 ≤ rcode) && decide (rcode < 300))

/-- The error tag read by handle_error_response from the parsed
response body (resp.get with an empty-string default). -/
def extractErrorType (body : V) : String :=
  match body with
  | V.dict fs =>
      match lookupF fs "type" with
      | some (V.str s) => s
      | _ => ""
  | _ => ""

/-- APIRequestor.interpret_response on an already-parsed body: raise
the mapped exception for every non-2xx code, return the body otherwise.
The function is invoked once per request; it performs no retry. -/
def interpretResponse (rcode : Int) (body : V) : Except ApiErr V :=
  if shouldHandleCodeAsError rcode then
    Except.error (specificApiError rcode (extractErrorType body))
  else Except.ok body

/-! ### The object materializer

Embedding of util.convert_to_superb_ai_object together with the class
machinery it invokes: SuperbAIObject.construct_from_dict, the
class-specific constructors, SuperbAIObject.load_from_dict,
SuperbAIObject.get_cls_by_discriminator and
AnnotationType.load_from_raw_data.  The recursion of the source is not
structural (load_from_dict re-materializes the raw_data value carried in
the prepared parameter dict), so every function of the nest takes a fuel
argument; fuel exhaustion is reported as its own error so theorems can
be stated for every fuel and witnessed at a sufficient one. -/

def isNull : V → Bool
  | V.null => true
  | _ => false

/-- object_mapping.OBJECT_MAPPING: the global object-type registry. -/
def OBJECT_MAPPING : List (String × PyCls) :=
  [("annotation", PyCls.annotation),
   ("dataset", PyCls.dataset),
   ("image", PyCls.image),
   ("job", PyCls.job),
   ("slice", PyCls.slice)]

/-- The _object_type tag of each class. -/
def objectTypeTag : PyCls → String
  | PyCls.annotation => "annotation"
  | PyCls.dataset => "dataset"
  | PyCls.image => "image"
  | PyCls.job => "job"
  | PyCls.slice => "slice"
  | PyCls.boundingBox => "box"
  | PyCls.keypoints => "keypoint"
  | PyCls.polygon => "polygon"
  | PyCls.polyline => "polyline"
  | PyCls.rotatedBox => "rbox"
  | PyCls.cuboid2D => "cuboid2d"
  | PyCls.category => "category"
  | _ => ""

/-- Whether a class is an AnnotationType subclass. -/
def isAnnotationType : PyCls → Bool
  | PyCls.point | PyCls.contour | PyCls.face | PyCls.boundingBox
  | PyCls.keypointState | PyCls.keypoint | PyCls.edge | PyCls.keypoints
  | PyCls.path | PyCls.polygon | PyCls.polyline | PyCls.rotatedBox
  | PyCls.cuboid2D | PyCls.category => true
  | _ => false

/-- The _field_class_map of each class; an entry with value none models
a key mapped to None in the source. -/
def fieldClassMap (c : PyCls) : List (String × Option PyCls) :=
  match c with
  | PyCls.point => [("x", none), ("y", none)]
  | PyCls.contour => [("points", some PyCls.point)]
  | PyCls.face => [("contours", some PyCls.contour)]
  | PyCls.keypointState => [("visible", none), ("valid", none)]
  | PyCls.keypoint => [("x", none), ("y", none), ("visible", none), ("name", none)]
  | PyCls.keypoints => [("points", some PyCls.keypoint), ("edges", some PyCls.edge)]
  | PyCls.path => [("points", some PyCls.point)]
  | PyCls.polygon => [("faces", some PyCls.face)]
  | PyCls.polyline => [("paths", some PyCls.path)]
  | PyCls.cuboid2D => [("near", some PyCls.boundingBox), ("far", some PyCls.boundingBox)]
  | _ => []

/-- _field_class_map.get(k, None): a missing key and a key mapped to
None both yield no class. -/
def fcmGet (c : PyCls) (k : String) : Option PyCls :=
  match (fieldClassMap c).lookup k with
  | some (some cl) => some cl
  | _ => none

/-- The _raw_data_field_map of each class. -/
def rawDataFieldMap (c : PyCls) : List (String × String) :=
  match c with
  | PyCls.polygon => [("points", "faces")]
  | PyCls.polyline => [("points", "paths")]
  | _ => []

/-- The _raw_data_child_cls of each class. -/
def rawDataChildCls (c : PyCls) : Option (String × PyCls) :=
  match c with
  | PyCls.contour => some ("points", PyCls.point)
  | PyCls.face => some ("contours", PyCls.contour)
  | PyCls.path => some ("points", PyCls.point)
  | _ => none

/-- Annotation._discriminator_map's tag table for annotation_value. -/
def discriminatorTable : List (String × PyCls) :=
  [("box", PyCls.boundingBox),
   ("category", PyCls.category),
   ("cuboid2d", PyCls.cuboid2D),
   ("keypoint", PyCls.keypoints),
   ("polygon", PyCls.polygon),
   ("polyline", PyCls.polyline),
   ("rbox", PyCls.rotatedBox)]

/-- The _discriminator_map of each class: Annotation maps the
annotation_value field to the sibling key annotation_type with the tag
table above; every other class has the empty map. -/
def discriminatorMap (c : PyCls) (field : String) :
    Option (String × List (String × PyCls)) :=
  if c = PyCls.annotation ∧ field = "annotation_value" then
    some ("annotation_type", discriminatorTable)
  else none

/-- The _field_initializers of each class: Annotation routes
annotation_value through _init_annotation_value. -/
def hasFieldInitializer (c : PyCls) (k : String) : Bool :=
  decide (c = PyCls.annotation) && decide (k = "annotation_value")

/-- The keyword parameters of the class __init__ whose defaults are
None; these form the parameter dict underlying load_from_raw_data's
prepared data. -/
def initParamKeys (c : PyCls) : List String :=
  match c with
  | PyCls.point => ["x", "y"]
  | PyCls.contour => ["points"]
  | PyCls.face => ["contours"]
  | PyCls.boundingBox => ["x", "y", "width", "height"]
  | PyCls.keypointState => ["visible", "valid"]
  | PyCls.keypoint => ["name", "x", "y", "state"]
  | PyCls.edge => ["x", "y"]
  | PyCls.keypoints => ["points", "edges"]
  | PyCls.path => ["points"]
  | PyCls.polygon => ["faces"]
  | PyCls.polyline => ["paths"]
  | PyCls.rotatedBox => ["cx", "cy", "width", "height", "angle"]
  | PyCls.cuboid2D => ["near", "far"]
  | PyCls.category => ["value"]
  | _ => []

/-- The native_args keys validated by _init_volatile_fields: Category
validates the empty list (value is optional), every other geometry
class validates its constructor keys. -/
def nativeArgKeys (c : PyCls) : List String :=
  match c with
  | PyCls.category => []
  | _ => initParamKeys c

/-- SuperbAIObject.get_cls_by_discriminator: look up the field's
discriminator entry; when one exists, resolve the sibling-field tag
against the table, raising ValidationError for a tag (including the
empty-string default of a missing sibling) with no registered class. -/
def getClsByDiscriminator (c : PyCls) (field : String) (data : Fields) :
    Res (Option PyCls) :=
  match discriminatorMap c field with
  | none => Except.ok none
  | some (dkey, table) =>
      match getF data dkey (V.str "") with
      | V.str s =>
          match table.lookup s with
          | some cl => Except.ok (some cl)
          | none => Except.error Err.validation
      | _ => Except.error Err.validation

/-- Applies {v: data[k] for k, v in raw_data_field_map.items()} with
Python KeyError on a missing source key. -/
def applyRawDataFieldMap : List (String × String) → Fields → Res Fields
  | [], _ => Except.ok []
  | (k, v) :: rest, fs =>
      match lookupF fs k with
      | some x => do
          let tail ← applyRawDataFieldMap rest fs
          Except.ok ((v, x) :: tail)
      | none => Except.error Err.keyErr

mutual

/-- util.convert_to_superb_ai_object: lists are mapped elementwise, a
plain dict is materialized via the object-type registry (defaulting to
the caller-supplied class, then to the generic SuperbAIObject), and an
already-typed object or scalar is returned unchanged. -/
def convert (fuel : Nat) (cls : Option PyCls) (v : V) : Res V :=
  match fuel with
  | 0 => Except.error Err.fuel
  | f + 1 =>
      match v with
      | V.list xs => do
          let ys ← convertListF f cls xs
          Except.ok (V.list ys)
      | V.dict fs =>
          let cls1 := cls.getD PyCls.generic
          let cls2 := match getF fs "_object_type" (V.str "") with
            | V.str s => (OBJECT_MAPPING.lookup s).getD cls1
            | _ => cls1
          constructFromDict f cls2 fs
      | other => Except.ok other
termination_by structural fuel

/-- Elementwise conversion of a list. -/
def convertListF (fuel : Nat) (cls : Option PyCls) : List V → Res (List V)
  | [] => Except.ok []
  | x :: xs =>
      match fuel with
      | 0 => Except.error Err.fuel
      | f + 1 => do
          let y ← convert f cls x
          let ys ← convertListF f cls xs
          Except.ok (y :: ys)
termination_by structural fuel

/-- SuperbAIObject.construct_from_dict: run the class constructor on
the data (augmented with its id), then load the fields from the data. -/
def constructFromDict (fuel : Nat) (c : PyCls) (fs : Fields) : Res V :=
  match fuel with
  | 0 => Except.error Err.fuel
  | f + 1 => do
      let initParams := setF fs "id" (getF fs "id" V.null)
      let _ ← initObject f c initParams
      let flds ← loadFromDict f c fs
      Except.ok (V.tdo c flds)
termination_by structural fuel

/-- Construction of an AnnotationType subclass from raw data, the call
cls(raw_data=data) issued by _init_annotation_value and by
load_from_raw_data for child fields. -/
def constructRaw (fuel : Nat) (c : PyCls) (d : V) : Res V :=
  match fuel with
  | 0 => Except.error Err.fuel
  | f + 1 => do
      let ps := (initParamKeys c).map (fun k => (k, V.null)) ++ [("raw_data", d)]
      let flds ← initObject f c ps
      Except.ok (V.tdo c flds)
termination_by structural fuel

/-- Elementwise raw construction of child objects. -/
def constructRawListF (fuel : Nat) (c : PyCls) : List V → Res (List V)
  | [] => Except.ok []
  | x :: xs =>
      match fuel with
      | 0 => Except.error Err.fuel
      | f + 1 => do
          let y ← constructRaw f c x
          let ys ← constructRawListF f c xs
          Except.ok (y :: ys)
termination_by structural fuel

/-- The class constructor cls(**init_params): Annotation first binds
its required keyword arguments and infers annotation_type from a typed
annotation_value; every class then runs SuperbAIObject.__init__ and,
for AnnotationType subclasses, load_from_raw_data. -/
def initObject (fuel : Nat) (c : PyCls) (ps : Fields) : Res Fields :=
  match fuel with
  | 0 => Except.error Err.fuel
  | f + 1 =>
      match c with
      | PyCls.annotation =>
          match lookupF ps "annotation_class", lookupF ps "annotation_value",
              lookupF ps "metadata" with
          | some _, some av, some _ =>
              let at0 := getF ps "annotation_type" V.null
              let at1 := match av with
                | V.tdo cl _ =>
                    if isAnnotationType cl then V.str (objectTypeTag cl) else at0
                | _ => at0
              baseInit f PyCls.annotation (setF ps "annotation_type" at1)
          | _, _, _ => Except.error Err.typeErr
      | _ => baseInit f c ps
termination_by structural fuel

/-- SuperbAIObject.__init__ (an id short-circuits the volatile-field
initialization) followed, for AnnotationType subclasses, by
AnnotationType.__init__'s call to load_from_raw_data. -/
def baseInit (fuel : Nat) (c : PyCls) (ps : Fields) : Res Fields :=
  match fuel with
  | 0 => Except.error Err.fuel
  | f + 1 => do
      let idv := getF ps "id" V.null
      let fields0 ←
        if truthy idv then Except.ok [("id", idv)]
        else volatileInit f c ps
      if isAnnotationType c then
        loadFromRawData f c ps (getF ps "raw_data" V.null) fields0
      else Except.ok fields0
termination_by structural fuel

/-- The per-class _init_volatile_fields. -/
def volatileInit (fuel : Nat) (c : PyCls) (ps : Fields) : Res Fields :=
  match fuel with
  | 0 => Except.error Err.fuel
  | f + 1 =>
      match c with
      | PyCls.generic | PyCls.dataset | PyCls.job | PyCls.slice => Except.ok []
      | PyCls.image => do
          let key := getF ps "key" V.null
          if isNull key then Except.error Err.validation else
          let keyC ← convert f none key
          let src := getF ps "source" V.null
          if isNull src then Except.error Err.validation else
          let srcC ← convert f none src
          let md := getF ps "metadata" V.null
          if isNull md then Except.error Err.validation else
          let mdC ← convert f none md
          Except.ok (setF (setF (setF [] "key" keyC) "source" srcC) "metadata" mdC)
      | PyCls.annotation => annotationVolatile f ps
      | _ => do
          let rd := getF ps "raw_data" V.null
          let natives := (nativeArgKeys c).map (fun k => getF ps k V.null)
          if !(natives.all (fun v => !isNull v)) && isNull rd then
            Except.error Err.validation
          else
            let loadFields ←
              match c with
              | PyCls.category => Except.ok [("value", getF ps "value" V.null)]
              | PyCls.keypoint =>
                  if truthy rd then
                    match rd with
                    | V.dict gs => Except.ok gs
                    | V.tdo _ gs => Except.ok gs
                    | _ => Except.error Err.attributeErr
                  else
                    Except.ok ((nativeArgKeys c).map (fun k => (k, getF ps k V.null)))
              | _ => Except.ok ((nativeArgKeys c).map (fun k => (k, getF ps k V.null)))
            volatileLoadF f c loadFields []
termination_by structural fuel

/-- _init_volatile_fields_load: store each field after converting it
with its statically declared class. -/
def volatileLoadF (fuel : Nat) (c : PyCls) : Fields → Fields → Res Fields
  | [], acc => Except.ok acc
  | (k, v) :: rest, acc =>
      match fuel with
      | 0 => Except.error Err.fuel
      | f + 1 => do
          let w ← convert f (fcmGet c k) v
          volatileLoadF f c rest (setF acc k w)
termination_by structural fuel

/-- Annotation._init_volatile_fields: require one of image_id or
image_key, require annotation_class, annotation_type, annotation_value
and metadata, store the fields, reject a falsy annotation_type, and
materialize a plain-mapping or list annotation_value through the
discriminator. -/
def annotationVolatile (fuel : Nat) (ps : Fields) : Res Fields :=
  match fuel with
  | 0 => Except.error Err.fuel
  | f + 1 => do
      let iid := getF ps "image_id" V.null
      let ikey := getF ps "image_key" V.null
      if isNull iid && isNull ikey then Except.error Err.validation else
      let iidC ← convert f none iid
      let ikeyC ← convert f none ikey
      let acc0 := setF (setF [] "image_id" iidC) "image_key" ikeyC
      let ac := getF ps "annotation_class" V.null
      if isNull ac then Except.error Err.validation else
      let acC ← convert f none ac
      let acc1 := setF acc0 "annotation_class" acC
      let atv := getF ps "annotation_type" V.null
      if isNull atv then Except.error Err.validation else
      let atC ← convert f none atv
      let acc2 := setF acc1 "annotation_type" atC
      let av := getF ps "annotation_value" V.null
      if isNull av then Except.error Err.validation else
      let avC ← convert f none av
      let acc3 := setF acc2 "annotation_value" avC
      let md := getF ps "metadata" V.null
      if isNull md then Except.error Err.validation else
      let mdC ← convert f none md
      let acc4 := setF acc3 "metadata" mdC
      if !truthy atv then Except.error Err.validation else
      let triggers := match av with
        | V.dict _ => true
        | V.list _ => true
        | V.tdo cl _ => !isAnnotationType cl
        | _ => false
      if triggers then do
        let clsOpt ← getClsByDiscriminator PyCls.annotation "annotation_value"
          [("annotation_type", atv)]
        match clsOpt with
        | some cl => do
            let v ← constructRaw f cl av
            Except.ok (setF acc4 "annotation_value" v)
        | none => Except.error Err.typeErr
      else Except.ok acc4
termination_by structural fuel

/-- AnnotationType.load_from_raw_data: a raw dict is re-keyed through
the raw-data field map, child fields with a declared class are
constructed from their raw forms, the result is merged over the
constructor parameters and loaded; a raw list is mapped through the
declared child class; finally any stored raw_data field is deleted.
With no applicable branch the volatile fields are kept. -/
def loadFromRawData (fuel : Nat) (c : PyCls) (ps : Fields) (rd : V)
    (vol : Fields) : Res Fields :=
  match fuel with
  | 0 => Except.error Err.fuel
  | f + 1 =>
      match rd with
      | V.null => Except.ok vol
      | V.dict fs => loadFromRawDataDict f c ps fs
      | V.tdo _ fs => loadFromRawDataDict f c ps fs
      | V.list xs =>
          match rawDataChildCls c with
          | some (childrenKey, childCls) => do
              let items ← constructRawListF f childCls xs
              let prepared := setF ps childrenKey (V.list items)
              let flds ← loadFromDict f c prepared
              Except.ok (if hasKeyF flds "raw_data" then delF flds "raw_data" else flds)
          | none =>
              Except.ok (if hasKeyF vol "raw_data" then delF vol "raw_data" else vol)
      | _ =>
          Except.ok (if hasKeyF vol "raw_data" then delF vol "raw_data" else vol)
termination_by structural fuel

/-- The dict branch of load_from_raw_data. -/
def loadFromRawDataDict (fuel : Nat) (c : PyCls) (ps : Fields) (fs : Fields) :
    Res Fields :=
  match fuel with
  | 0 => Except.error Err.fuel
  | f + 1 => do
      let data ←
        if (rawDataFieldMap c).isEmpty then Except.ok fs
        else do
          let mapped ← applyRawDataFieldMap (rawDataFieldMap c) fs
          Except.ok (if mapped.isEmpty then fs else mapped)
      let prepared ← prepF f c data ps
      let flds ← loadFromDict f c prepared
      Except.ok (if hasKeyF flds "raw_data" then delF flds "raw_data" else flds)
termination_by structural fuel

/-- The field-preparation loop of load_from_raw_data's dict branch. -/
def prepF (fuel : Nat) (c : PyCls) : Fields → Fields → Res Fields
  | [], acc => Except.ok acc
  | (k, v) :: rest, acc =>
      match fuel with
      | 0 => Except.error Err.fuel
      | f + 1 => do
          let value ←
            match fcmGet c k with
            | some childCls =>
                match v with
                | V.list xs => do
                    let items ← constructRawListF f childCls xs
                    Except.ok (V.list items)
                | other => constructRaw f childCls other
            | none => Except.ok v
          prepF f c rest (setF acc k value)
termination_by structural fuel

/-- SuperbAIObject.load_from_dict: wipe the fields and repopulate each
key from the data, using the field initializer when declared, else the
static field class, else the discriminator. -/
def loadFromDict (fuel : Nat) (c : PyCls) (data : Fields) : Res Fields :=
  match fuel with
  | 0 => Except.error Err.fuel
  | f + 1 => loadFieldsF f c data data []
termination_by structural fuel

/-- The per-key loop of load_from_dict. -/
def loadFieldsF (fuel : Nat) (c : PyCls) (data : Fields) :
    Fields → Fields → Res Fields
  | [], acc => Except.ok acc
  | (k, v) :: rest, acc =>
      match fuel with
      | 0 => Except.error Err.fuel
      | f + 1 =>
          if hasFieldInitializer c k then
            match lookupF data "annotation_type", lookupF data "annotation_value" with
            | some atv, some av => do
                let clsOpt ← getClsByDiscriminator PyCls.annotation "annotation_value"
                  [("annotation_type", atv)]
                match clsOpt with
                | some cl => do
                    let w ← constructRaw f cl av
                    loadFieldsF f c data rest (setF acc "annotation_value" w)
                | none => Except.error Err.typeErr
            | _, _ => Except.error Err.typeErr
          else do
            let cls2 ←
              match fcmGet c k with
              | some cl => Except.ok (some cl)
              | none => getClsByDiscriminator c k data
            let w ← convert f cls2 v
            loadFieldsF f c data rest (setF acc k w)
termination_by structural fuel

end

/-! ### Deep flattening (SuperbAIObject.to_dict_deep and the raw
properties of the annotation types) -/

/-- Point.raw: the dict of the x and y attributes. -/
def rawPoint (v : V) : Res V :=
  match v with
  | V.tdo _ gfs => do
      let xv ← match lookupF gfs "x" with
        | some x => Except.ok x
        | none => Except.error Err.attributeErr
      let yv ← match lookupF gfs "y" with
        | some y => Except.ok y
        | none => Except.error Err.attributeErr
      Except.ok (V.dict [("x", xv), ("y", yv)])
  | _ => Except.error Err.attributeErr

/-- Contour.raw: the list of the raw points. -/
def rawContour (v : V) : Res V :=
  match v with
  | V.tdo _ gfs =>
      match lookupF gfs "points" with
      | some (V.list xs) => do
          let rs ← xs.mapM rawPoint
          Except.ok (V.list rs)
      | some _ => Except.error Err.typeErr
      | none => Except.error Err.attributeErr
  | _ => Except.error Err.attributeErr

/-- Face.raw: the list of the raw contours. -/
def rawFace (v : V) : Res V :=
  match v with
  | V.tdo _ gfs =>
      match lookupF gfs "contours" with
      | some (V.list xs) => do
          let rs ← xs.mapM rawContour
          Except.ok (V.list rs)
      | some _ => Except.error Err.typeErr
      | none => Except.error Err.attributeErr
  | _ => Except.error Err.attributeErr

/-- Path.raw: the list of the raw points. -/
def rawPath (v : V) : Res V :=
  match v with
  | V.tdo _ gfs =>
      match lookupF gfs "points" with
      | some (V.list xs) => do
          let rs ← xs.mapM rawPoint
          Except.ok (V.list rs)
      | some _ => Except.error Err.typeErr
      | none => Except.error Err.attributeErr
  | _ => Except.error Err.attributeErr

/-- Polygon.raw: the points dict built from the raw faces. -/
def rawPolygon (fs : Fields) : Res V :=
  match lookupF fs "faces" with
  | some (V.list xs) => do
      let rs ← xs.mapM rawFace
      Except.ok (V.dict [("points", V.list rs)])
  | some _ => Except.error Err.typeErr
  | none => Except.error Err.attributeErr

/-- Polyline.raw: the points dict built from the raw paths. -/
def rawPolyline (fs : Fields) : Res V :=
  match lookupF fs "paths" with
  | some (V.list xs) => do
      let rs ← xs.mapM rawPath
      Except.ok (V.dict [("points", V.list rs)])
  | some _ => Except.error Err.typeErr
  | none => Except.error Err.attributeErr

/-- The to_dict of each class: Polygon and Polyline override it with
their raw property; every other class returns its backing dict. -/
def toDict (c : PyCls) (fs : Fields) : Res V :=
  match c with
  | PyCls.polygon => rawPolygon fs
  | PyCls.polyline => rawPolyline fs
  | _ => Except.ok (V.dict fs)

mutual

/-- SuperbAIObject.to_dict_deep: take the object's to_dict and flatten
each entry with process_item, which maps obj_to_dict over one list
level; obj_to_dict keeps None, recursively flattens a nested
SuperbAIObject and keeps every other value as is. -/
def toDictDeep (fuel : Nat) (v : V) : Res V :=
  match fuel with
  | 0 => Except.error Err.fuel
  | f + 1 =>
      match v with
      | V.tdo c fs => do
          let selfDict ← toDict c fs
          match selfDict with
          | V.list xs => do
              let rs ← objToDictListF f xs
              Except.ok (V.list rs)
          | V.dict gs => do
              let rs ← processFieldsF f gs
              Except.ok (V.dict rs)
          | V.tdo _ gs => do
              let rs ← processFieldsF f gs
              Except.ok (V.dict rs)
          | _ => Except.error Err.typeErr
      | _ => Except.error Err.attributeErr
termination_by structural fuel

/-- obj_to_dict of to_dict_deep. -/
def objToDict (fuel : Nat) (v : V) : Res V :=
  match fuel with
  | 0 => Except.error Err.fuel
  | f + 1 =>
      match v with
      | V.null => Except.ok V.null
      | V.tdo c fs => toDictDeep f (V.tdo c fs)
      | other => Except.ok other
termination_by structural fuel

/-- Elementwise obj_to_dict over one list level. -/
def objToDictListF (fuel : Nat) : List V → Res (List V)
  | [] => Except.ok []
  | x :: xs =>
      match fuel with
      | 0 => Except.error Err.fuel
      | f + 1 => do
          let y ← objToDict f x
          let ys ← objToDictListF f xs
          Except.ok (y :: ys)
termination_by structural fuel

/-- The result-building loop of to_dict_deep applying process_item to
each entry. -/
def processFieldsF (fuel : Nat) : Fields → Res Fields
  | [] => Except.ok []
  | (k, v) :: rest =>
      match fuel with
      | 0 => Except.error Err.fuel
      | f + 1 => do
          let w ←
            match v with
            | V.list xs => do
                let ys ← objToDictListF f xs
                Except.ok (V.list ys)
            | other => objToDict f other
          let tail ← processFieldsF f rest
          Except.ok ((k, w) :: tail)
termination_by structural fuel

end

/-- The class convert_to_superb_ai_object picks for a plain mapping
(util.py lines 85-93): the caller-supplied cls defaults the lookup of
the mapping's own _object_type tag in the global registry; the generic
SuperbAIObject stands in when the caller supplied no cls. -/
def resolveMaterializeCls (cls : Option PyCls) (fs : Fields) : PyCls :=
  let cls1 := cls.getD PyCls.generic
  match getF fs "_object_type" (V.str "") with
  | V.str s => (OBJECT_MAPPING.lookup s).getD cls1
  | _ => cls1

/-- Values that are neither containers nor typed objects (Python
scalars: None, bool, int, str). -/
def isScalar : V → Bool
  | V.list _ => false
  | V.dict _ => false
  | V.tdo _ _ => false
  | _ => true

/-! ### Well-formed raw annotation-geometry payloads

The payload families of the documented raw forms: every constructor
key of each component is present (with the documented key layout) and
leaves are scalars.  The keypoint example of the source docstring that
omits the x and y keys of a point falls outside these families and is
the counterexample to the unrestricted round-trip claim. -/

def wfPointRaw (v : V) : Prop :=
  ∃ a b : Int, v = V.dict [("x", V.int a), ("y", V.int b)]

def wfBoxRaw (v : V) : Prop :=
  ∃ a b w h : Int,
    v = V.dict [("x", V.int a), ("y", V.int b),
      ("width", V.int w), ("height", V.int h)]

def wfRBoxRaw (v : V) : Prop :=
  ∃ a b w h g : Int,
    v = V.dict [("cx", V.int a), ("cy", V.int b),
      ("width", V.int w), ("height", V.int h), ("angle", V.int g)]

def wfCategoryRaw (v : V) : Prop :=
  ∃ w, isScalar w = true ∧ v = V.dict [("value", w)]

def wfCuboidRaw (v : V) : Prop :=
  ∃ nb fb, wfBoxRaw nb ∧ wfBoxRaw fb ∧ v = V.dict [("near", nb), ("far", fb)]

def wfStateRaw (v : V) : Prop :=
  ∃ b1 b2 : Bool, v = V.dict [("visible", V.bool b1), ("valid", V.bool b2)]

def wfKeypointRaw (v : V) : Prop :=
  ∃ (s : String) (a b : Int) (st : V), wfStateRaw st ∧
    v = V.dict [("name", V.str s), ("x", V.int a), ("y", V.int b), ("state", st)]

def wfEdgeRaw (v : V) : Prop :=
  ∃ a b : Int, v = V.dict [("x", V.int a), ("y", V.int b)]

def wfKeypointsRaw (v : V) : Prop :=
  ∃ pts es, (∀ p ∈ pts, wfKeypointRaw p) ∧ (∀ e ∈ es, wfEdgeRaw e) ∧
    v = V.dict [("points", V.list pts), ("edges", V.list es)]

def wfContourRaw (v : V) : Prop :=
  ∃ ps, (∀ p ∈ ps, wfPointRaw p) ∧ v = V.list ps

def wfFaceRaw (v : V) : Prop :=
  ∃ cs, (∀ c ∈ cs, wfContourRaw c) ∧ v = V.list cs

def wfPolygonRaw (v : V) : Prop :=
  ∃ faces, (∀ fc ∈ faces, wfFaceRaw fc) ∧
    v = V.dict [("points", V.list faces)]

def wfPolylineRaw (v : V) : Prop :=
  ∃ paths, (∀ p ∈ paths, wfContourRaw p) ∧
    v = V.dict [("points", V.list paths)]

/-! ### Shared lemmas -/

theorem lookupF_setF_self (fs : Fields) (k : String) (v : V) :
    lookupF (setF fs k v) k = some v := by
  induction fs with
  | nil => simp [setF, lookupF]
  | cons hd tl ih =>
      obtain ⟨l, w⟩ := hd
      by_cases h : l = k
      · simp [setF, h, lookupF]
      · simp [setF, h, lookupF, ih]

theorem lookupF_setF_ne (fs : Fields) (k : String) (v : V) (k' : String)
    (h : k' ≠ k) : lookupF (setF fs k v) k' = lookupF fs k' := by
  induction fs with
  | nil => simp [setF, lookupF, Ne.symm h]
  | cons hd tl ih =>
      obtain ⟨l, w⟩ := hd
      by_cases hl : l = k
      · subst hl
        simp [setF, lookupF, Ne.symm h]
      · by_cases hl' : l = k'
        · subst hl'
          simp [setF, hl, lookupF]
        · simp [setF, hl, lookupF, hl', ih]

/-! ### C2: bulk-upload batching -/

theorem uploadBatchesGo_spec (maxB maxO fileMax : Nat)
    (hB : 0 < maxB) (hO : 0 < maxO) :
    ∀ (sizes cur : List Nat) (acc : List (List Nat)),
      (∀ s ∈ sizes, s ≤ fileMax) →
      cur.sum < maxB → cur.length < maxO →
      (sizes = [] → cur = []) →
      ∃ bs, uploadBatchesGo maxB maxO fileMax sizes cur acc = Except.ok bs ∧
        ∃ tail, bs = acc.reverse ++ tail ∧ tail.join = cur ++ sizes ∧
          ∀ b ∈ tail, b ≠ [] ∧ b.length ≤ maxO ∧ b.dropLast.sum < maxB := by
  intro sizes
  induction sizes with
  | nil =>
      intro cur acc _ _ _ hnil
      refine ⟨acc.reverse, by simp [uploadBatchesGo], [], by simp, ?_, by simp⟩
      simp [hnil rfl]
  | cons s rest ih =>
      intro cur acc hsz hsum hlen _
      have hs : s ≤ fileMax := hsz s (by simp)
      have hnotgt : ¬ fileMax < s := by omega
      by_cases hflush :
          maxB ≤ (cur ++ [s]).sum ∨ (cur ++ [s]).length = maxO ∨ rest = []
      · obtain ⟨bs, hbs, tail, htail, hjoin, hprop⟩ :=
          ih [] ((cur ++ [s]) :: acc)
            (fun t ht => hsz t (by simp [ht])) (by simpa using hB)
            (by simpa using hO) (fun _ => rfl)
        refine ⟨bs, ?_, (cur ++ [s]) :: tail, ?_, ?_, ?_⟩
        · rw [uploadBatchesGo]
          simp only [hnotgt, if_false, if_neg, hflush, if_true, if_pos]
          exact hbs
        · rw [htail]; simp
        · simp only [List.join_cons, hjoin]
          simp
        · intro b hb
          rcases List.mem_cons.mp hb with hb | hb
          · subst hb
            refine ⟨by simp, by simpa using hlen, ?_⟩
            rw [List.dropLast_concat]
            exact hsum
          · exact hprop b hb
      · push_neg at hflush
        obtain ⟨h1, h2, h3⟩ := hflush
        obtain ⟨bs, hbs, tail, htail, hjoin, hprop⟩ :=
          ih (cur ++ [s]) acc (fun t ht => hsz t (by simp [ht]))
            (by omega) (by simp at h2 ⊢; omega) (fun hr => absurd hr h3)
        refine ⟨bs, ?_, tail, htail, ?_, hprop⟩
        · rw [uploadBatchesGo]
          simp only [hnotgt, if_false, if_neg]
          rw [if_neg]
          · exact hbs
          · push_neg
            exact ⟨h1, h2, h3⟩
        · rw [hjoin]; simp

/-- C2, counterexample: with sizes 10, 10, 10, a 25-byte batch ceiling
and a 10-object ceiling the loop flushes only at the last asset and
issues the single batch of all three assets, which is not the claimed
pair of batches and does not respect the byte limit. -/
theorem batching_example_exceeds_byte_limit :
    uploadBatches [10, 10, 10] 25 10 UPLOAD_IMAGE_FILE_BYTES_MAX
      = Except.ok [[10, 10, 10]] ∧
    ([[10, 10, 10]] : List (List Nat)) ≠ [[10, 10], [10]] ∧
    ¬ ([10, 10, 10] : List Nat).sum ≤ 25 := by
  refine ⟨rfl, by decide, by decide⟩

/-- C2, amended: the pipeline partitions the assets in input order into
consecutive non-empty batches whose concatenation is the input, where
each batch holds at most max_objects assets and the bytes of a batch
excluding its last asset stay below max_bytes; a batch is flushed only
after the asset that reaches a limit has been added, so the byte limit
can be exceeded by the final asset of a batch (sizes 10, 10, 10 with
max_bytes 25 yield the single batch of all three). -/
theorem batching_flush_after_add
    (sizes : List Nat) (maxB maxO fileMax : Nat)
    (hB : 0 < maxB) (hO : 0 < maxO) (hsz : ∀ s ∈ sizes, s ≤ fileMax) :
    ∃ bs, uploadBatches sizes maxB maxO fileMax = Except.ok bs ∧
      bs.join = sizes ∧
      ∀ b ∈ bs, b ≠ [] ∧ b.length ≤ maxO ∧ b.dropLast.sum < maxB := by
  obtain ⟨bs, h, tail, ht, hj, hp⟩ :=
    uploadBatchesGo_spec maxB maxO fileMax hB hO sizes [] [] hsz
      (by simpa using hB) (by simpa using hO) (fun _ => rfl)
  simp only [List.reverse_nil, List.nil_append] at ht
  subst ht
  exact ⟨bs, h, by simpa using hj, hp⟩

/-- C2, witness. -/
theorem batching_flush_after_add_witness :
    ∃ bs, uploadBatches [10, 10, 10] 25 10 UPLOAD_IMAGE_FILE_BYTES_MAX
        = Except.ok bs ∧
      bs.join = [10, 10, 10] ∧
      ∀ b ∈ bs, b ≠ [] ∧ b.length ≤ 10 ∧ b.dropLast.sum < 25 :=
  batching_flush_after_add [10, 10, 10] 25 10 UPLOAD_IMAGE_FILE_BYTES_MAX
    (by decide) (by decide) (by decide)

/-! ### C6: per-asset upload retry with exponential backoff -/

/-- C6: an upload failing with a retryable status (or a network error)
exactly k < MAX_RETRY_COUNT times and then succeeding completes with
the sleeps calculate_backoff(1), ..., calculate_backoff(k); failing
MAX_RETRY_COUNT times raises RetryableError, an error distinct from
validation and authentication failures. -/
theorem upload_retry_backoff :
    ∀ k, k < MAX_RETRY_COUNT →
      (∀ rest, uploadAsset
          (List.replicate k (UploadOutcome.status 500) ++
            UploadOutcome.status 200 :: rest)
        = Except.ok
            ((List.range k).map fun i => calculateBackoff (i + 1) BACKOFF_FACTOR)) ∧
      (∀ rest, uploadAsset
          (List.replicate k UploadOutcome.netError ++
            UploadOutcome.status 200 :: rest)
        = Except.ok
            ((List.range k).map fun i => calculateBackoff (i + 1) BACKOFF_FACTOR)) ∧
      uploadAsset (List.replicate MAX_RETRY_COUNT (UploadOutcome.status 500))
        = Except.error Err.retryable ∧
      uploadAsset (List.replicate MAX_RETRY_COUNT UploadOutcome.netError)
        = Except.error Err.retryable := by
  intro k hk
  have hk' : k = 0 ∨ k = 1 := by
    simp only [MAX_RETRY_COUNT] at hk
    omega
  rcases hk' with rfl | rfl
  · exact ⟨fun rest => rfl, fun rest => rfl, rfl, rfl⟩
  · exact ⟨fun rest => rfl, fun rest => rfl, rfl, rfl⟩

/-- C6, witness. -/
theorem upload_retry_backoff_witness :
    uploadAsset [UploadOutcome.status 500, UploadOutcome.status 200]
      = Except.ok [1] := by
  have h := (upload_retry_backoff 1 (by decide)).1 []
  simpa using h

/-! ### C7: job polling loop -/

/-- C7, counterexample: with a three-second budget and a never-terminal
job the loop sleeps 2 seconds and then only 1 second (the remaining
budget), so the polling interval is not a fixed 2 seconds. -/
theorem wait_sleep_not_fixed_two :
    waitUntilComplete "PENDING" [] 3 = ([2, 1], "PENDING") ∧
    ¬ (∀ s ∈ (waitUntilComplete "PENDING" [] 3).1, s = (2 : Int)) := by
  have h0 : waitUntilComplete "PENDING" [] (-1) = ([], "PENDING") := by
    rw [waitUntilComplete.eq_def]
    norm_num
  have h1 : waitUntilComplete "PENDING" [] 1 = ([1], "PENDING") := by
    rw [waitUntilComplete.eq_def]
    norm_num
    simp [h0]
  have h : waitUntilComplete "PENDING" [] 3 = ([2, 1], "PENDING") := by
    rw [waitUntilComplete.eq_def]
    norm_num
    simp [h1]
  refine ⟨h, ?_⟩
  rw [h]
  intro hall
  have := hall 1 (by simp)
  omega

/-- C7, amended: the loop always terminates and returns without
raising; it returns immediately when the status is terminal; each sleep
lasts min(remaining, 2) seconds, so every sleep is between 1 and 2
seconds and all but the last are exactly 2; and on return either the
observed status is terminal or the budget is exhausted. -/
theorem wait_until_complete_spec :
    ∀ (n : Nat) (timeout : Int), (timeout + 1).toNat ≤ n →
    ∀ (status : String) (refreshes : List String),
      ((status = "FAILED" ∨ status = "COMPLETE") →
        waitUntilComplete status refreshes timeout = ([], status)) ∧
      (∀ s ∈ (waitUntilComplete status refreshes timeout).1, 1 ≤ s ∧ s ≤ 2) ∧
      (∀ s ∈ (waitUntilComplete status refreshes timeout).1.dropLast, s = 2) ∧
      ((waitUntilComplete status refreshes timeout).1 ≠ [] → 1 ≤ timeout) ∧
      (((waitUntilComplete status refreshes timeout).2 = "FAILED" ∨
          (waitUntilComplete status refreshes timeout).2 = "COMPLETE") ∨
        timeout - 2 * (waitUntilComplete status refreshes timeout).1.length ≤ 0) := by
  intro n
  induction n with
  | zero =>
      intro timeout hle status refreshes
      have ht : timeout ≤ -1 := by omega
      have hres : waitUntilComplete status refreshes timeout
          = ([], status) := by
        rw [waitUntilComplete.eq_def]
        by_cases hterm : status = "FAILED" ∨ status = "COMPLETE"
        · simp [hterm]
        · have : min timeout 2 ≤ 0 := by omega
          simp [hterm, this]
      refine ⟨fun _ => hres, ?_, ?_, ?_, ?_⟩
      · rw [hres]; intro s hs; simp at hs
      · rw [hres]; intro s hs; simp at hs
      · rw [hres]; intro hne; simp at hne
      · rw [hres]; right; simpa using (by omega : timeout ≤ 0)
  | succ m ih =>
      intro timeout hle status refreshes
      by_cases hterm : status = "FAILED" ∨ status = "COMPLETE"
      · have hres : waitUntilComplete status refreshes timeout = ([], status) := by
          rw [waitUntilComplete.eq_def]
          simp [hterm]
        refine ⟨fun _ => hres, ?_, ?_, ?_, ?_⟩
        · rw [hres]; intro s hs; simp at hs
        · rw [hres]; intro s hs; simp at hs
        · rw [hres]; intro hne; simp at hne
        · rw [hres]; left; simpa using hterm
      · by_cases hmin : min timeout 2 ≤ 0
        · have hres : waitUntilComplete status refreshes timeout = ([], status) := by
            rw [waitUntilComplete.eq_def]
            simp [hterm, hmin]
          refine ⟨fun h => absurd h hterm, ?_, ?_, ?_, ?_⟩
          · rw [hres]; intro s hs; simp at hs
          · rw [hres]; intro s hs; simp at hs
          · rw [hres]; intro hne; simp at hne
          · rw [hres]; right
            simp only [List.length_nil]
            omega
        · have h1 : 1 ≤ timeout := by omega
          set next : String × List String :=
            (match refreshes with
              | [] => (status, ([] : List String))
              | s :: rest => (s, rest)) with hnext
          have hres : waitUntilComplete status refreshes timeout
              = (min timeout 2 ::
                  (waitUntilComplete next.1 next.2 (timeout - 2)).1,
                 (waitUntilComplete next.1 next.2 (timeout - 2)).2) := by
            rw [waitUntilComplete.eq_def]
            simp only [hterm, or_self, if_false, if_neg, hmin, ite_false]
            rfl
          have hIH := ih (timeout - 2) (by omega) next.1 next.2
          obtain ⟨_, ih2, ih3, ih4, ih5⟩ := hIH
          refine ⟨fun h => absurd h hterm, ?_, ?_, ?_, ?_⟩
          · rw [hres]
            intro s hs
            rcases List.mem_cons.mp hs with rfl | hs
            · constructor <;> omega
            · exact ih2 s hs
          · rw [hres]
            intro s hs
            rcases hrec : (waitUntilComplete next.1 next.2 (timeout - 2)).1 with
              _ | ⟨b, bs⟩
            · rw [hrec] at hs
              simp at hs
            · rw [hrec] at hs
              rw [List.dropLast_cons_of_ne_nil (by simp)] at hs
              rcases List.mem_cons.mp hs with rfl | hs
              · have h3 : 1 ≤ timeout - 2 := ih4 (by rw [hrec]; simp)
                omega
              · have := ih3 s (by rw [hrec]; exact hs)
                exact this
          · intro _
            exact h1
          · rw [hres]
            rcases ih5 with h | h
            · left; exact h
            · right
              simp only [List.length_cons]
              omega

/-- C7, witness. -/
theorem wait_until_complete_spec_witness :
    waitUntilComplete "COMPLETE" [] 5 = ([], "COMPLETE") :=
  (wait_until_complete_spec 6 5 (by decide) "COMPLETE" []).1 (Or.inr rfl)

/-! ### C8: endpoint parameter validation before network I/O -/

/-- C8: for any operation on any resource class whose endpoint template
exists, supplying any path parameter equal to None or the empty string
makes get_endpoint raise ValidationError and the operation perform zero
transport invocations. -/
theorem endpoint_param_validation_no_network
    (c : PyCls) (op : String) (url : String) (ps : List (String × V))
    (dfltMethod : String) (remote : Res V)
    (hurl : (endpointTable c).lookup op = some url)
    (hbad : ∃ kv ∈ ps, isEmptyParam kv.2 = true) :
    getEndpoint c op (some ps) = Except.error Err.validation ∧
    operationTrace c op dfltMethod (some ps) remote
      = ([], Except.error Err.validation) := by
  obtain ⟨kv, hmem, hkv⟩ := hbad
  have hne : ps.isEmpty = false := by
    cases ps with
    | nil => cases hmem
    | cons a l => rfl
  have hany : ps.any (fun kv => isEmptyParam kv.2) = true :=
    List.any_eq_true.mpr ⟨kv, hmem, hkv⟩
  have hge : getEndpoint c op (some ps) = Except.error Err.validation := by
    unfold getEndpoint
    rw [hurl]
    simp [hne, hany]
  refine ⟨hge, ?_⟩
  unfold operationTrace
  rw [hge]

/-- C8, witness. -/
theorem endpoint_param_validation_no_network_witness :
    operationTrace PyCls.annotation "fetch" "get"
        (some [("dataset_id", V.null)]) (Except.ok V.null)
      = ([], Except.error Err.validation) :=
  (endpoint_param_validation_no_network PyCls.annotation "fetch"
    "/curate/dataset-query/datasets/{dataset_id}/images/{image_id}/annotations/{id}"
    [("dataset_id", V.null)] "get" (Except.ok V.null) rfl
    ⟨("dataset_id", V.null), by simp, rfl⟩).2

/-! ### C9: HTTP status-to-exception mapping -/

/-- C9: the request layer maps each non-2xx status to exactly the
documented exception (with the QUERY_SYNTAX sub-kind for 400), maps
every other non-2xx code to the generic APIError, and returns the body
without raising for every 2xx code; interpret_response is a single-shot
function, so none of these raises are retried by the request layer. -/
theorem status_code_exception_mapping (body : V) :
    (extractErrorType body = "QUERY_SYNTAX" →
      interpretResponse 400 body = Except.error ApiErr.querySyntax) ∧
    (extractErrorType body ≠ "QUERY_SYNTAX" →
      interpretResponse 400 body = Except.error ApiErr.badRequest) ∧
    interpretResponse 401 body = Except.error ApiErr.authentication ∧
    interpretResponse 404 body = Except.error ApiErr.notFound ∧
    interpretResponse 409 body = Except.error ApiErr.conflict ∧
    interpretResponse 429 body = Except.error ApiErr.tooManyRequests ∧
    interpretResponse 500 body = Except.error ApiErr.system ∧
    (∀ rcode : Int, ¬ (200 ≤ rcode ∧ rcode < 300) →
      rcode ∉ ([400, 401, 404, 409, 429, 500] : List Int) →
      interpretResponse rcode body = Except.error ApiErr.api) ∧
    (∀ rcode : Int, 200 ≤ rcode → rcode < 300 →
      interpretResponse rcode body = Except.ok body) := by
  refine ⟨?_, ?_, ?_, ?_, ?_, ?_, ?_, ?_, ?_⟩
  · intro h
    simp [interpretResponse, shouldHandleCodeAsError, specificApiError, h]
  · intro h
    simp [interpretResponse, shouldHandleCodeAsError, specificApiError, h]
  · rfl
  · rfl
  · rfl
  · rfl
  · rfl
  · intro rcode hr hmem
    simp only [List.mem_cons, List.not_mem_nil, or_false] at hmem
    push_neg at hmem
    obtain ⟨h400, h401, h404, h409, h429, h500⟩ := hmem
    have hhandle : shouldHandleCodeAsError rcode = true := by
      simp [shouldHandleCodeAsError]
      omega
    simp [interpretResponse, hhandle, specificApiError, h400, h401, h404,
      h409, h429, h500]
  · intro rcode h1 h2
    have hhandle : shouldHandleCodeAsError rcode = false := by
      simp [shouldHandleCodeAsError]
      omega
    simp [interpretResponse, hhandle]

/-- C9, witness. -/
theorem status_code_exception_mapping_witness :
    interpretResponse 400 (V.dict [("type", V.str "QUERY_SYNTAX")])
      = Except.error ApiErr.querySyntax :=
  (status_code_exception_mapping (V.dict [("type", V.str "QUERY_SYNTAX")])).1 rfl

/-! ### C10: delete clears only the local id -/

/-- C10: when the remote delete succeeds the instance's id field is set
to None and every other field keeps its value; when endpoint resolution
or the remote request raises, the fields are left entirely unchanged. -/
theorem delete_sets_id_none_frame
    (c : PyCls) (fs : Fields) (ep : Option (List (String × V)))
    (remote : Res V) :
    ((deleteRun c fs ep remote).2 = Except.ok () →
      (deleteRun c fs ep remote).1 = setF fs "id" V.null ∧
      lookupF (deleteRun c fs ep remote).1 "id" = some V.null ∧
      ∀ k, k ≠ "id" →
        lookupF (deleteRun c fs ep remote).1 k = lookupF fs k) ∧
    (∀ e, (deleteRun c fs ep remote).2 = Except.error e →
      (deleteRun c fs ep remote).1 = fs) := by
  cases h : (operationTrace c "delete" "delete" ep remote).2 with
  | error e =>
      have hres : deleteRun c fs ep remote = (fs, Except.error e) := by
        unfold deleteRun
        rw [h]
      rw [hres]
      refine ⟨?_, fun e' _ => rfl⟩
      intro hok
      simp at hok
  | ok v =>
      have hres : deleteRun c fs ep remote
          = (setF fs "id" V.null, Except.ok ()) := by
        unfold deleteRun
        rw [h]
      rw [hres]
      refine ⟨fun _ => ⟨rfl, lookupF_setF_self fs "id" V.null,
        fun k hk => lookupF_setF_ne fs "id" V.null k hk⟩, ?_⟩
      intro e' he'
      simp at he'

/-- C10, witness. -/
theorem delete_sets_id_none_frame_witness :
    lookupF (deleteRun PyCls.dataset [("id", V.str "x"), ("name", V.str "n")]
        (some [("id", V.str "x")]) (Except.ok V.null)).1 "id"
      = some V.null :=
  ((delete_sets_id_none_frame PyCls.dataset
      [("id", V.str "x"), ("name", V.str "n")]
      (some [("id", V.str "x")]) (Except.ok V.null)).1 rfl).2.1

/-! ### Inversion helpers for the materializer -/

theorem ok_bind {α β : Type} (a : α) (g : α → Res β) :
    (Except.ok a : Res α) >>= g = g a := rfl

theorem resBind_ok {α β : Type} {x : Res α} {g : α → Res β} {v : β}
    (h : x >>= g = Except.ok v) :
    ∃ a, x = Except.ok a ∧ g a = Except.ok v := by
  cases x with
  | error e => simp [Bind.bind, Except.bind] at h
  | ok a => exact ⟨a, rfl, by simpa [Bind.bind, Except.bind] using h⟩

/-- construct_from_dict yields an instance of exactly the class it was
asked to construct. -/
theorem constructFromDict_class (fuel : Nat) (c : PyCls) (fs : Fields) (v : V)
    (h : constructFromDict fuel c fs = Except.ok v) : ∃ gs, v = V.tdo c gs := by
  cases fuel with
  | zero => simp [constructFromDict] at h
  | succ f =>
      simp only [constructFromDict] at h
      obtain ⟨w, hw, h⟩ := resBind_ok h
      obtain ⟨flds, hflds, h⟩ := resBind_ok h
      exact ⟨flds, by simpa using h.symm⟩

/-- cls(raw_data=d) yields an instance of exactly cls. -/
theorem constructRaw_class (fuel : Nat) (c : PyCls) (d : V) (v : V)
    (h : constructRaw fuel c d = Except.ok v) : ∃ gs, v = V.tdo c gs := by
  cases fuel with
  | zero => simp [constructRaw] at h
  | succ f =>
      simp only [constructRaw] at h
      obtain ⟨flds, hflds, h⟩ := resBind_ok h
      exact ⟨flds, by simpa using h.symm⟩

/-! ### C3: class-resolution order of the materializer -/

/-- C3, counterexample: a mapping carrying the registered tag image is
materialized as an Image even when the caller supplies BoundingBox as
the type hint, so the hint does not take precedence over the tag. -/
theorem materializer_hint_not_respected :
    convert 10 (some PyCls.boundingBox)
        (V.dict [("_object_type", V.str "image"), ("id", V.str "abc")])
      = Except.ok (V.tdo PyCls.image
          [("_object_type", V.str "image"), ("id", V.str "abc")]) ∧
    PyCls.image ≠ PyCls.boundingBox :=
  ⟨rfl, by decide⟩

/-- C3, amended: for a plain mapping the materializer resolves the
concrete type by first looking the mapping's own _object_type tag up in
the global registry and uses the caller-supplied cls only as the
default for that lookup (falling back to the generic SuperbAIObject
when no cls was supplied): every successful materialization of a
mapping is an instance of the class so resolved, a registered tag wins
over the hint, and an unregistered tag falls back to the hint. -/
theorem materializer_registry_overrides_hint :
    (∀ (fuel : Nat) (cls : Option PyCls) (fs : Fields) (v : V),
      convert fuel cls (V.dict fs) = Except.ok v →
      ∃ gs, v = V.tdo (resolveMaterializeCls cls fs) gs) ∧
    (∀ (cls : Option PyCls) (fs : Fields) (s : String) (cl : PyCls),
      getF fs "_object_type" (V.str "") = V.str s →
      OBJECT_MAPPING.lookup s = some cl →
      resolveMaterializeCls cls fs = cl) ∧
    (∀ (cls : Option PyCls) (fs : Fields) (s : String),
      getF fs "_object_type" (V.str "") = V.str s →
      OBJECT_MAPPING.lookup s = none →
      resolveMaterializeCls cls fs = cls.getD PyCls.generic) := by
  refine ⟨?_, ?_, ?_⟩
  · intro fuel cls fs v h
    cases fuel with
    | zero => simp [convert] at h
    | succ f =>
        simp only [convert] at h
        have h' : constructFromDict f (resolveMaterializeCls cls fs) fs
            = Except.ok v := by
          simpa [resolveMaterializeCls] using h
        exact constructFromDict_class f _ fs v h'
  · intro cls fs s cl h1 h2
    simp [resolveMaterializeCls, h1, h2]
  · intro cls fs s h1 h2
    simp [resolveMaterializeCls, h1, h2]

/-- C3, witness. -/
theorem materializer_registry_overrides_hint_witness :
    ∃ gs, V.tdo PyCls.image [("_object_type", V.str "image"), ("id", V.str "abc")]
        = V.tdo (resolveMaterializeCls (some PyCls.boundingBox)
            [("_object_type", V.str "image"), ("id", V.str "abc")]) gs :=
  materializer_registry_overrides_hint.1 10 (some PyCls.boundingBox)
    [("_object_type", V.str "image"), ("id", V.str "abc")]
    (V.tdo PyCls.image [("_object_type", V.str "image"), ("id", V.str "abc")]) rfl

/-! ### C4: idempotence of the materializer -/

/-- C4: the materializer is idempotent: whenever converting a value
succeeds, converting the result again (with the same hint) returns it
unchanged; in particular already-typed objects, scalars and their lists
are never double-wrapped. -/
theorem materializer_idempotent :
    ∀ (fuel : Nat),
      (∀ (cls : Option PyCls) (d v : V),
        convert fuel cls d = Except.ok v → convert fuel cls v = Except.ok v) ∧
      (∀ (cls : Option PyCls) (xs ys : List V),
        convertListF fuel cls xs = Except.ok ys →
          convertListF fuel cls ys = Except.ok ys) := by
  intro fuel
  induction fuel with
  | zero =>
      refine ⟨?_, ?_⟩
      · intro cls d v h
        simp [convert] at h
      · intro cls xs ys h
        cases xs with
        | nil =>
            have : ys = [] := by simpa [convertListF] using h.symm
            subst this
            rfl
        | cons x xs' => simp [convertListF] at h
  | succ f ih =>
      obtain ⟨ih1, ih2⟩ := ih
      refine ⟨?_, ?_⟩
      · intro cls d v h
        cases d with
        | null =>
            have : v = V.null := by simpa [convert] using h.symm
            subst this
            rfl
        | bool b =>
            have : v = V.bool b := by simpa [convert] using h.symm
            subst this
            rfl
        | int n =>
            have : v = V.int n := by simpa [convert] using h.symm
            subst this
            rfl
        | str s =>
            have : v = V.str s := by simpa [convert] using h.symm
            subst this
            rfl
        | tdo c gs =>
            have : v = V.tdo c gs := by simpa [convert] using h.symm
            subst this
            rfl
        | list xs =>
            simp only [convert] at h
            obtain ⟨ys, hys, h⟩ := resBind_ok h
            have hv : v = V.list ys := by simpa using h.symm
            subst hv
            simp only [convert]
            rw [ih2 cls xs ys hys]
            rfl
        | dict fs =>
            simp only [convert] at h
            obtain ⟨gs, rfl⟩ := constructFromDict_class f _ fs v h
            rfl
      · intro cls xs ys h
        cases xs with
        | nil =>
            have : ys = [] := by simpa [convertListF] using h.symm
            subst this
            rfl
        | cons x xs' =>
            simp only [convertListF] at h
            obtain ⟨y, hy, h⟩ := resBind_ok h
            obtain ⟨ys', hys', h⟩ := resBind_ok h
            have hv : ys = y :: ys' := by simpa using h.symm
            subst hv
            simp only [convertListF]
            rw [ih1 cls x y hy, ih2 cls xs' ys' hys']
            rfl

/-- C4, witness. -/
theorem materializer_idempotent_witness :
    convert 10 none (V.tdo PyCls.generic [("a", V.int 1)])
      = Except.ok (V.tdo PyCls.generic [("a", V.int 1)]) :=
  (materializer_idempotent 10).1 none (V.dict [("a", V.int 1)])
    (V.tdo PyCls.generic [("a", V.int 1)]) rfl

/-! ### C5: discriminator correctness -/

theorem hasKeyF_any (fs : Fields) (k : String) (h : hasKeyF fs k = true) :
    fs.any (fun kv => kv.1 == k) = true := by
  induction fs with
  | nil => simp [hasKeyF, lookupF] at h
  | cons hd tl ih =>
      obtain ⟨l, w⟩ := hd
      by_cases hl : l = k
      · simp [hl]
      · simp only [hasKeyF, lookupF, hl, if_false, if_neg] at h
        simp [hl, ih h]

/-- The per-key loop of load_from_dict installs the discriminated class
instance at annotation_value and never overwrites it with anything
else. -/
theorem loadFieldsF_annotation_value
    (tag : String) (cl : PyCls)
    (htab : discriminatorTable.lookup tag = some cl)
    (data : Fields) (hdata : lookupF data "annotation_type" = some (V.str tag)) :
    ∀ (rem : Fields) (fuel : Nat) (acc out : Fields),
      loadFieldsF fuel PyCls.annotation data rem acc = Except.ok out →
      ((∃ gs, lookupF acc "annotation_value" = some (V.tdo cl gs)) ∨
        rem.any (fun kv => kv.1 == "annotation_value") = true) →
      ∃ gs, lookupF out "annotation_value" = some (V.tdo cl gs) := by
  intro rem
  induction rem with
  | nil =>
      intro fuel acc out h hinv
      have hout : out = acc := by simpa [loadFieldsF] using h.symm
      subst hout
      rcases hinv with hinv | hinv
      · exact hinv
      · simp at hinv
  | cons kv rest ih =>
      intro fuel acc out h hinv
      obtain ⟨k, v⟩ := kv
      cases fuel with
      | zero => simp [loadFieldsF] at h
      | succ f =>
          by_cases hk : k = "annotation_value"
          · subst hk
            simp only [loadFieldsF, hasFieldInitializer, decide_True,
              Bool.and_self, if_true, if_pos, hdata] at h
            cases hval : lookupF data "annotation_value" with
            | none => rw [hval] at h; simp at h
            | some av =>
                rw [hval] at h
                have hget : getClsByDiscriminator PyCls.annotation
                    "annotation_value" [("annotation_type", V.str tag)]
                    = Except.ok (some cl) := by
                  simp [getClsByDiscriminator, discriminatorMap, getF,
                    lookupF, htab]
                simp only [hget, ok_bind] at h
                obtain ⟨w, hw, h⟩ := resBind_ok h
                obtain ⟨gs, rfl⟩ := constructRaw_class f cl av w hw
                exact ih f _ out h
                  (Or.inl ⟨gs, lookupF_setF_self acc "annotation_value"
                    (V.tdo cl gs)⟩)
          · have hki : hasFieldInitializer PyCls.annotation k = false := by
              simp [hasFieldInitializer, hk]
            simp only [loadFieldsF, hki, Bool.false_eq_true, if_false,
              if_neg] at h
            obtain ⟨cls2, hcls2, h⟩ := resBind_ok h
            obtain ⟨w, hw, h⟩ := resBind_ok h
            refine ih f _ out h ?_
            rcases hinv with ⟨gs, hacc⟩ | hany
            · exact Or.inl ⟨gs, by
                rw [lookupF_setF_ne acc k w "annotation_value" (Ne.symm hk)]
                exact hacc⟩
            · right
              have hbeq : (k == "annotation_value") = false := by
                simp [hk]
              simp only [List.any_cons, hbeq, Bool.false_or] at hany
              exact hany
termination_by rem => rem.length

/-- C5: for every registered discriminator tag, materializing an
annotation payload carrying that tag constructs annotation_value as an
instance of exactly the registered concrete class; a tag outside the
table, a non-string tag value and a missing annotation_type sibling
all raise ValidationError from get_cls_by_discriminator, with no
fallback. -/
theorem discriminator_correctness :
    (∀ (data : Fields) (tag : String) (cl : PyCls),
      discriminatorTable.lookup tag = some cl →
      getF data "annotation_type" (V.str "") = V.str tag →
      getClsByDiscriminator PyCls.annotation "annotation_value" data
        = Except.ok (some cl)) ∧
    (∀ (data : Fields) (tag : String),
      getF data "annotation_type" (V.str "") = V.str tag →
      discriminatorTable.lookup tag = none →
      getClsByDiscriminator PyCls.annotation "annotation_value" data
        = Except.error Err.validation) ∧
    (∀ data : Fields, lookupF data "annotation_type" = none →
      getClsByDiscriminator PyCls.annotation "annotation_value" data
        = Except.error Err.validation) ∧
    (∀ (fuel : Nat) (payload out : Fields) (tag : String) (cl : PyCls),
      loadFromDict fuel PyCls.annotation payload = Except.ok out →
      lookupF payload "annotation_type" = some (V.str tag) →
      discriminatorTable.lookup tag = some cl →
      hasKeyF payload "annotation_value" = true →
      ∃ gs, lookupF out "annotation_value" = some (V.tdo cl gs)) := by
  refine ⟨?_, ?_, ?_, ?_⟩
  · intro data tag cl htab hget
    simp [getClsByDiscriminator, discriminatorMap, hget, htab]
  · intro data tag hget htab
    simp [getClsByDiscriminator, discriminatorMap, hget, htab]
  · intro data hnone
    simp only [getClsByDiscriminator, discriminatorMap, and_self, if_pos,
      if_true, getF, hnone, Option.getD_none]
    rfl
  · intro fuel payload out tag cl h hdata htab hkey
    cases fuel with
    | zero => simp [loadFromDict] at h
    | succ f =>
        simp only [loadFromDict] at h
        exact loadFieldsF_annotation_value tag cl htab payload hdata payload
          f [] out h (Or.inr (hasKeyF_any payload "annotation_value" hkey))

/-! ### C1 support: inversion lemmas for the construct pipeline -/

theorem convert_scalar (f : Nat) (c : Option PyCls) (v w : V)
    (hsc : isScalar v = true) (h : convert f c v = Except.ok w) : w = v := by
  cases f with
  | zero => simp [convert] at h
  | succ f' =>
      cases v <;> simp_all [convert, isScalar]

theorem convert_tdo (f : Nat) (c : Option PyCls) (cl : PyCls) (gs : Fields)
    (w : V) (h : convert f c (V.tdo cl gs) = Except.ok w) : w = V.tdo cl gs := by
  cases f with
  | zero => simp [convert] at h
  | succ f' => simpa [convert] using h.symm

theorem convertListF_tdos (c : Option PyCls) :
    ∀ (qs : List V) (f : Nat) (ys : List V),
      (∀ q ∈ qs, ∃ cl gs, q = V.tdo cl gs) →
      convertListF f c qs = Except.ok ys → ys = qs := by
  intro qs
  induction qs with
  | nil =>
      intro f ys _ h
      simpa [convertListF] using h.symm
  | cons q rest ih =>
      intro f ys hq h
      cases f with
      | zero => simp [convertListF] at h
      | succ f' =>
          obtain ⟨cl, gs, rfl⟩ := hq q (by simp)
          simp only [convertListF] at h
          obtain ⟨y, hy, h⟩ := resBind_ok h
          obtain ⟨ys', hys', h⟩ := resBind_ok h
          have hyq : y = V.tdo cl gs := convert_tdo f' c cl gs y hy
          have hcons : ys = y :: ys' := by simpa using h.symm
          rw [hcons, hyq, ih f' ys' (fun x hx => hq x (by simp [hx])) hys']

theorem convert_tdoList (f : Nat) (c : Option PyCls) (qs : List V) (w : V)
    (hq : ∀ q ∈ qs, ∃ cl gs, q = V.tdo cl gs)
    (h : convert f c (V.list qs) = Except.ok w) : w = V.list qs := by
  cases f with
  | zero => simp [convert] at h
  | succ f' =>
      simp only [convert] at h
      obtain ⟨ys, hys, h⟩ := resBind_ok h
      have hyq : ys = qs := convertListF_tdos c qs f' ys hq hys
      have hw : w = V.list ys := by simpa using h.symm
      rw [hw, hyq]

theorem discriminatorMap_ne (c : PyCls) (k : String)
    (hc : c ≠ PyCls.annotation) : discriminatorMap c k = none := by
  simp [discriminatorMap, hc]

theorem getClsByDiscriminator_ne (c : PyCls) (k : String) (data : Fields)
    (hc : c ≠ PyCls.annotation) :
    getClsByDiscriminator c k data = Except.ok none := by
  simp [getClsByDiscriminator, discriminatorMap_ne c k hc]

theorem loadFieldsF_nil (f : Nat) (c : PyCls) (data acc : Fields) :
    loadFieldsF f c data [] acc = Except.ok acc := by
  cases f <;> rfl

/-- One step of the load_from_dict loop for a non-Annotation class:
the entry's value is converted with its static field class and stored. -/
theorem loadFieldsF_cons_inv (c : PyCls) (hc : c ≠ PyCls.annotation)
    (data : Fields) (k : String) (v : V) (rest acc out : Fields) (f : Nat)
    (h : loadFieldsF (f + 1) c data ((k, v) :: rest) acc = Except.ok out) :
    ∃ w, convert f (fcmGet c k) v = Except.ok w ∧
      loadFieldsF f c data rest (setF acc k w) = Except.ok out := by
  have hki : hasFieldInitializer c k = false := by
    simp [hasFieldInitializer, hc]
  have hki2 : hasFieldInitializer c k = false := hki
  cases hfcm : fcmGet c k with
  | some cl =>
      simp only [loadFieldsF, hki, Bool.false_eq_true, if_false, if_neg,
        hfcm, ok_bind] at h
      obtain ⟨w, hw, h⟩ := resBind_ok h
      exact ⟨w, by first | exact hw | (rw [hfcm]; exact hw), h⟩
  | none =>
      simp only [loadFieldsF, hki, Bool.false_eq_true, if_false, if_neg,
        hfcm, getClsByDiscriminator_ne c k data hc, ok_bind] at h
      obtain ⟨w, hw, h⟩ := resBind_ok h
      exact ⟨w, by first | exact hw | (rw [hfcm]; exact hw), h⟩

theorem prepF_nil (f : Nat) (c : PyCls) (acc : Fields) :
    prepF f c [] acc = Except.ok acc := by
  cases f <;> rfl

theorem prepF_cons_none (f : Nat) (c : PyCls) (k : String) (v : V)
    (rest acc : Fields) (hfcm : fcmGet c k = none) :
    prepF (f + 1) c ((k, v) :: rest) acc = prepF f c rest (setF acc k v) := by
  simp [prepF, hfcm, ok_bind]

theorem prepF_cons_some_list (f : Nat) (c : PyCls) (k : String) (xs : List V)
    (cl : PyCls) (rest acc out : Fields) (hfcm : fcmGet c k = some cl)
    (h : prepF (f + 1) c ((k, V.list xs) :: rest) acc = Except.ok out) :
    ∃ items, constructRawListF f cl xs = Except.ok items ∧
      prepF f c rest (setF acc k (V.list items)) = Except.ok out := by
  simp only [prepF, hfcm, ok_bind] at h
  obtain ⟨items, hitems, h⟩ := resBind_ok h
  refine ⟨items, hitems, ?_⟩
  first
  | exact h
  | simpa [ok_bind] using h

theorem prepF_cons_some_dict (f : Nat) (c : PyCls) (k : String) (d : V)
    (cl : PyCls) (rest acc out : Fields) (hfcm : fcmGet c k = some cl)
    (hd : ∀ xs, d ≠ V.list xs)
    (h : prepF (f + 1) c ((k, d) :: rest) acc = Except.ok out) :
    ∃ q, constructRaw f cl d = Except.ok q ∧
      prepF f c rest (setF acc k q) = Except.ok out := by
  simp only [prepF, hfcm] at h
  cases d with
  | list xs => exact absurd rfl (hd xs)
  | null =>
      obtain ⟨q, hq, h⟩ := resBind_ok h
      exact ⟨q, hq, h⟩
  | bool b =>
      obtain ⟨q, hq, h⟩ := resBind_ok h
      exact ⟨q, hq, h⟩
  | int n =>
      obtain ⟨q, hq, h⟩ := resBind_ok h
      exact ⟨q, hq, h⟩
  | str s =>
      obtain ⟨q, hq, h⟩ := resBind_ok h
      exact ⟨q, hq, h⟩
  | dict gs =>
      obtain ⟨q, hq, h⟩ := resBind_ok h
      exact ⟨q, hq, h⟩
  | tdo cl' gs =>
      obtain ⟨q, hq, h⟩ := resBind_ok h
      exact ⟨q, hq, h⟩

theorem lookup_params_ne (ks : List String) (x : V) (k : String)
    (h1 : k ∉ ks) (h2 : k ≠ "raw_data") :
    lookupF (ks.map (fun k' => (k', V.null)) ++ [("raw_data", x)]) k = none := by
  induction ks with
  | nil => simp [lookupF, Ne.symm h2]
  | cons a rest ih =>
      have ha : a ≠ k := fun hk => h1 (by simp [hk])
      simp only [List.map_cons, List.cons_append, lookupF, ha, if_false, if_neg]
      exact ih (fun hm => h1 (by simp [hm]))

theorem lookup_params_rawdata (ks : List String) (x : V)
    (h1 : "raw_data" ∉ ks) :
    lookupF (ks.map (fun k' => (k', V.null)) ++ [("raw_data", x)]) "raw_data"
      = some x := by
  induction ks with
  | nil => simp [lookupF]
  | cons a rest ih =>
      have ha : a ≠ "raw_data" := fun hk => h1 (by simp [hk])
      simp only [List.map_cons, List.cons_append, lookupF, ha, if_false, if_neg]
      exact ih (fun hm => h1 (by simp [hm]))

/-- Inversion of the full cls(raw_data=dict) pipeline for an
AnnotationType subclass with an empty raw-data field map: the dict's
own entries are prepared over the constructor parameters and loaded,
and the stored raw_data entry is deleted. -/
theorem constructRaw_dict_chain (f : Nat) (c : PyCls) (fs : Fields) (v : V)
    (hc1 : c ≠ PyCls.annotation) (hann : isAnnotationType c = true)
    (hmap : rawDataFieldMap c = [])
    (hid : "id" ∉ initParamKeys c) (hrd : "raw_data" ∉ initParamKeys c)
    (h : constructRaw f c (V.dict fs) = Except.ok v) :
    ∃ (f1 f2 : Nat) (prepared flds : Fields),
      prepF f1 c fs
          ((initParamKeys c).map (fun k => (k, V.null)) ++
            [("raw_data", V.dict fs)]) = Except.ok prepared ∧
      loadFieldsF f2 c prepared prepared [] = Except.ok flds ∧
      v = V.tdo c
        (if hasKeyF flds "raw_data" then delF flds "raw_data" else flds) := by
  cases f with
  | zero => simp [constructRaw] at h
  | succ f =>
      simp only [constructRaw] at h
      obtain ⟨flds0, hinit, h⟩ := resBind_ok h
      have hv : v = V.tdo c flds0 := by simpa using h.symm
      cases f with
      | zero => simp [initObject] at hinit
      | succ f =>
          rw [show initObject (f + 1) c
              ((initParamKeys c).map (fun k => (k, V.null)) ++
                [("raw_data", V.dict fs)])
              = baseInit f c ((initParamKeys c).map (fun k => (k, V.null)) ++
                [("raw_data", V.dict fs)]) from by
            cases c <;> simp_all [initObject]] at hinit
          cases f with
          | zero => simp [baseInit] at hinit
          | succ f =>
              simp only [baseInit, getF, lookup_params_ne _ _ "id" hid
                (by decide), Option.getD_none, truthy, Bool.false_eq_true,
                if_false, if_neg,
                lookup_params_rawdata _ _ hrd, Option.getD_some, hann,
                if_true, if_pos] at hinit
              obtain ⟨vol, hvol, hinit⟩ := resBind_ok hinit
              cases f with
              | zero => simp [loadFromRawData] at hinit
              | succ f =>
                  simp only [loadFromRawData] at hinit
                  cases f with
                  | zero => simp [loadFromRawDataDict] at hinit
                  | succ f =>
                      simp only [loadFromRawDataDict, hmap, List.isEmpty_nil,
                        if_true, if_pos, ok_bind] at hinit
                      obtain ⟨prepared, hprep, hinit⟩ := resBind_ok hinit
                      obtain ⟨flds, hload, hinit⟩ := resBind_ok hinit
                      have hflds0 : flds0 = if hasKeyF flds "raw_data" then
                          delF flds "raw_data" else flds := by
                        simpa using hinit.symm
                      cases f with
                      | zero => simp [loadFromDict] at hload
                      | succ f =>
                          simp only [loadFromDict] at hload
                          refine ⟨f + 1, f, prepared, flds, hprep, hload, ?_⟩
                          rw [hv, hflds0]

/-- Inversion of the cls(raw_data=list) pipeline for an AnnotationType
subclass with a declared raw-data child class. -/
theorem constructRaw_list_chain (f : Nat) (c : PyCls) (xs : List V) (v : V)
    (childrenKey : String) (childCls : PyCls)
    (hc1 : c ≠ PyCls.annotation) (hann : isAnnotationType c = true)
    (hchild : rawDataChildCls c = some (childrenKey, childCls))
    (hid : "id" ∉ initParamKeys c)
    (h : constructRaw f c (V.list xs) = Except.ok v) :
    ∃ (f1 f2 : Nat) (items : List V) (flds : Fields),
      constructRawListF f1 childCls xs = Except.ok items ∧
      loadFieldsF f2 c
          (setF ((initParamKeys c).map (fun k => (k, V.null)) ++
            [("raw_data", V.list xs)]) childrenKey (V.list items))
          (setF ((initParamKeys c).map (fun k => (k, V.null)) ++
            [("raw_data", V.list xs)]) childrenKey (V.list items)) []
        = Except.ok flds ∧
      v = V.tdo c
        (if hasKeyF flds "raw_data" then delF flds "raw_data" else flds) := by
  cases f with
  | zero => simp [constructRaw] at h
  | succ f =>
      simp only [constructRaw] at h
      obtain ⟨flds0, hinit, h⟩ := resBind_ok h
      have hv : v = V.tdo c flds0 := by simpa using h.symm
      cases f with
      | zero => simp [initObject] at hinit
      | succ f =>
          rw [show initObject (f + 1) c
              ((initParamKeys c).map (fun k => (k, V.null)) ++
                [("raw_data", V.list xs)])
              = baseInit f c ((initParamKeys c).map (fun k => (k, V.null)) ++
                [("raw_data", V.list xs)]) from by
            cases c <;> simp_all [initObject]] at hinit
          cases f with
          | zero => simp [baseInit] at hinit
          | succ f =>
              have hrd2 : "raw_data" ∉ initParamKeys c := by
                cases c <;> simp [initParamKeys]
              simp only [baseInit, getF, lookup_params_ne _ _ "id" hid
                (by decide), Option.getD_none, truthy, Bool.false_eq_true,
                if_false, if_neg,
                lookup_params_rawdata _ _ hrd2, Option.getD_some, hann,
                if_true, if_pos] at hinit
              obtain ⟨vol, hvol, hinit⟩ := resBind_ok hinit
              cases f with
              | zero => simp [loadFromRawData] at hinit
              | succ f =>
                  simp only [loadFromRawData, hchild, ok_bind] at hinit
                  obtain ⟨items, hitems, hinit⟩ := resBind_ok hinit
                  obtain ⟨flds, hload, hinit⟩ := resBind_ok hinit
                  have hflds0 : flds0 = if hasKeyF flds "raw_data" then
                      delF flds "raw_data" else flds := by
                    simpa using hinit.symm
                  cases f with
                  | zero => simp [loadFromDict] at hload
                  | succ f =>
                      simp only [loadFromDict] at hload
                      refine ⟨f + 1, f, items, flds, hitems, hload, ?_⟩
                      rw [hv, hflds0]

/-- Point(raw_data=dict) builds a Point with exactly the x and y
fields. -/
theorem pointChar (f : Nat) (a b : Int) (v : V)
    (h : constructRaw f PyCls.point
        (V.dict [("x", V.int a), ("y", V.int b)]) = Except.ok v) :
    v = V.tdo PyCls.point [("x", V.int a), ("y", V.int b)] := by
  obtain ⟨f1, f2, prepared, flds, hprep, hload, hv⟩ :=
    constructRaw_dict_chain f PyCls.point [("x", V.int a), ("y", V.int b)] v
      (by decide) (by decide) (by decide) (by decide) (by decide) h
  simp only [initParamKeys, List.map_cons, List.map_nil, List.cons_append,
    List.nil_append] at hprep hload
  cases f1 with
  | zero => simp [prepF] at hprep
  | succ f1 =>
      rw [prepF_cons_none f1 PyCls.point "x" (V.int a) _ _ (by decide)] at hprep
      cases f1 with
      | zero => simp [prepF] at hprep
      | succ f1 =>
          rw [prepF_cons_none f1 PyCls.point "y" (V.int b) _ _ (by decide)]
            at hprep
          rw [prepF_nil] at hprep
          have hpre : prepared = [("x", V.int a), ("y", V.int b),
              ("raw_data", V.dict [("x", V.int a), ("y", V.int b)])] := by
            have := hprep.symm
            simpa [setF] using this
          rw [hpre] at hload
          cases f2 with
          | zero => simp [loadFieldsF] at hload
          | succ f2 =>
              obtain ⟨w1, hw1, hload⟩ := loadFieldsF_cons_inv PyCls.point
                (by decide) _ "x" (V.int a) _ _ flds f2 hload
              have hw1' : w1 = V.int a := convert_scalar f2 _ _ w1 rfl hw1
              cases f2 with
              | zero => simp [loadFieldsF] at hload
              | succ f2 =>
                  obtain ⟨w2, hw2, hload⟩ := loadFieldsF_cons_inv PyCls.point
                    (by decide) _ "y" (V.int b) _ _ flds f2 hload
                  have hw2' : w2 = V.int b := convert_scalar f2 _ _ w2 rfl hw2
                  cases f2 with
                  | zero => simp [loadFieldsF] at hload
                  | succ f2 =>
                      obtain ⟨w3, hw3, hload⟩ := loadFieldsF_cons_inv
                        PyCls.point (by decide) _ "raw_data"
                        (V.dict [("x", V.int a), ("y", V.int b)]) _ _ flds f2
                        hload
                      rw [loadFieldsF_nil] at hload
                      have hflds : flds = setF (setF (setF [] "x" w1) "y" w2)
                          "raw_data" w3 := by
                        simpa using hload.symm
                      rw [hv, hflds, hw1', hw2']
                      simp [setF, hasKeyF, lookupF, delF]

/-- Inversion of construct_from_dict: the constructor ran and the
fields come from load_from_dict on the data. -/
theorem constructFromDict_chain (f : Nat) (c : PyCls) (fs : Fields) (v : V)
    (h : constructFromDict f c fs = Except.ok v) :
    ∃ (f2 : Nat) (flds : Fields),
      loadFromDict f2 c fs = Except.ok flds ∧ v = V.tdo c flds := by
  cases f with
  | zero => simp [constructFromDict] at h
  | succ f' =>
      simp only [constructFromDict] at h
      obtain ⟨u, hu, h⟩ := resBind_ok h
      obtain ⟨flds, hflds, h⟩ := resBind_ok h
      exact ⟨f', flds, hflds, by simpa using h.symm⟩

/-- A preparation pass whose keys all lack a static field class copies
the data over the accumulator. -/
theorem prepF_all_none :
    ∀ (entries : Fields) (f : Nat) (c : PyCls) (acc out : Fields),
      (∀ kv ∈ entries, fcmGet c kv.1 = none) →
      prepF f c entries acc = Except.ok out →
      out = entries.foldl (fun a kv => setF a kv.1 kv.2) acc := by
  intro entries
  induction entries with
  | nil =>
      intro f c acc out _ h
      rw [prepF_nil] at h
      simpa using h.symm
  | cons kv rest ih =>
      intro f c acc out hall h
      obtain ⟨k, v⟩ := kv
      cases f with
      | zero => simp [prepF] at h
      | succ f' =>
          rw [prepF_cons_none f' c k v rest acc (hall (k, v) (by simp))] at h
          rw [List.foldl_cons]
          exact ih f' c (setF acc k v) out (fun x hx => hall x (by simp [hx])) h

/-- A scalar entry is stored unchanged by one load step. -/
theorem loadFieldsF_scalar_step (c : PyCls) (hc : c ≠ PyCls.annotation)
    (data : Fields) (k : String) (v : V) (rest acc out : Fields) (f : Nat)
    (hsc : isScalar v = true)
    (h : loadFieldsF (f + 1) c data ((k, v) :: rest) acc = Except.ok out) :
    loadFieldsF f c data rest (setF acc k v) = Except.ok out := by
  obtain ⟨w, hw, h2⟩ := loadFieldsF_cons_inv c hc data k v rest acc out f h
  rw [convert_scalar f (fcmGet c k) v w hsc hw] at h2
  exact h2

/-- Loading scalar entries followed by a trailing raw_data entry
stores the scalars unchanged and some value under raw_data. -/
theorem loadFieldsF_scalars_raw :
    ∀ (entries : Fields) (d : V) (f : Nat) (c : PyCls)
      (data acc out : Fields), c ≠ PyCls.annotation →
      (∀ kv ∈ entries, isScalar kv.2 = true) →
      loadFieldsF f c data (entries ++ [("raw_data", d)]) acc = Except.ok out →
      ∃ w, out = setF (entries.foldl (fun a kv => setF a kv.1 kv.2) acc)
        "raw_data" w := by
  intro entries
  induction entries with
  | nil =>
      intro d f c data acc out hc _ h
      cases f with
      | zero => simp [loadFieldsF] at h
      | succ f' =>
          obtain ⟨w, hw, h2⟩ := loadFieldsF_cons_inv c hc data "raw_data" d []
            acc out f' (by simpa using h)
          rw [loadFieldsF_nil] at h2
          exact ⟨w, by simpa using h2.symm⟩
  | cons kv rest ih =>
      intro d f c data acc out hc hall h
      obtain ⟨k, v⟩ := kv
      cases f with
      | zero => simp [loadFieldsF] at h
      | succ f' =>
          have h2 := loadFieldsF_scalar_step c hc data k v _ acc out f'
            (hall (k, v) (by simp)) (by simpa using h)
          rw [List.foldl_cons]
          exact ih d f' c data (setF acc k v) out hc
            (fun x hx => hall x (by simp [hx])) h2

/-- Converting the documented keypoint state dict yields a generic
typed object with the same two fields. -/
theorem stateChar (f : Nat) (b1 b2 : Bool) (w : V)
    (h : convert f none
        (V.dict [("visible", V.bool b1), ("valid", V.bool b2)])
      = Except.ok w) :
    w = V.tdo PyCls.generic
      [("visible", V.bool b1), ("valid", V.bool b2)] := by
  cases f with
  | zero => simp [convert] at h
  | succ f' =>
      have hcv : convert (f' + 1) none
          (V.dict [("visible", V.bool b1), ("valid", V.bool b2)])
          = constructFromDict f' PyCls.generic
            [("visible", V.bool b1), ("valid", V.bool b2)] := by
        simp [convert, getF, lookupF, OBJECT_MAPPING, List.lookup]
      rw [hcv] at h
      obtain ⟨f2, flds, hload, hw⟩ := constructFromDict_chain f' PyCls.generic
        _ w h
      cases f2 with
      | zero => simp [loadFromDict] at hload
      | succ f2 =>
          simp only [loadFromDict] at hload
          cases f2 with
          | zero => simp [loadFieldsF] at hload
          | succ f2 =>
              have h1 := loadFieldsF_scalar_step PyCls.generic (by decide) _
                "visible" (V.bool b1) _ _ flds f2 rfl hload
              cases f2 with
              | zero => simp [loadFieldsF] at h1
              | succ f2 =>
                  have h2 := loadFieldsF_scalar_step PyCls.generic (by decide)
                    _ "valid" (V.bool b2) _ _ flds f2 rfl h1
                  rw [loadFieldsF_nil] at h2
                  have hflds : flds = [("visible", V.bool b1),
                      ("valid", V.bool b2)] := by
                    have := h2.symm
                    simpa [setF] using this
                  rw [hw, hflds]

/-- BoundingBox(raw_data=dict) keeps exactly the four documented
fields. -/
theorem boxChar (f : Nat) (a b w0 h0 : Int) (v : V)
    (h : constructRaw f PyCls.boundingBox
        (V.dict [("x", V.int a), ("y", V.int b),
          ("width", V.int w0), ("height", V.int h0)]) = Except.ok v) :
    v = V.tdo PyCls.boundingBox [("x", V.int a), ("y", V.int b),
      ("width", V.int w0), ("height", V.int h0)] := by
  obtain ⟨f1, f2, prepared, flds, hprep, hload, hv⟩ :=
    constructRaw_dict_chain f PyCls.boundingBox _ v (by decide) (by decide)
      (by decide) (by decide) (by decide) h
  have hpre : prepared = [("x", V.int a), ("y", V.int b),
      ("width", V.int w0), ("height", V.int h0),
      ("raw_data", V.dict [("x", V.int a), ("y", V.int b),
        ("width", V.int w0), ("height", V.int h0)])] := by
    rw [prepF_all_none _ f1 PyCls.boundingBox _ prepared
      (by intro kv hkv; simp at hkv;
          rcases hkv with rfl | rfl | rfl | rfl <;> rfl) hprep]
    simp [initParamKeys, setF]
  rw [hpre] at hload
  obtain ⟨w, hflds⟩ := loadFieldsF_scalars_raw
    [("x", V.int a), ("y", V.int b), ("width", V.int w0),
      ("height", V.int h0)] _ f2 PyCls.boundingBox _ _ flds (by decide)
    (by intro kv hkv; simp at hkv;
        rcases hkv with rfl | rfl | rfl | rfl <;> rfl)
    (by simpa using hload)
  rw [hv, hflds]
  simp [setF, hasKeyF, lookupF, delF]

/-- Edge(raw_data=dict) keeps exactly the x and y fields. -/
theorem edgeChar (f : Nat) (a b : Int) (v : V)
    (h : constructRaw f PyCls.edge
        (V.dict [("x", V.int a), ("y", V.int b)]) = Except.ok v) :
    v = V.tdo PyCls.edge [("x", V.int a), ("y", V.int b)] := by
  obtain ⟨f1, f2, prepared, flds, hprep, hload, hv⟩ :=
    constructRaw_dict_chain f PyCls.edge _ v (by decide) (by decide)
      (by decide) (by decide) (by decide) h
  have hpre : prepared = [("x", V.int a), ("y", V.int b),
      ("raw_data", V.dict [("x", V.int a), ("y", V.int b)])] := by
    rw [prepF_all_none _ f1 PyCls.edge _ prepared
      (by intro kv hkv; simp at hkv; rcases hkv with rfl | rfl <;> rfl) hprep]
    simp [initParamKeys, setF]
  rw [hpre] at hload
  obtain ⟨w, hflds⟩ := loadFieldsF_scalars_raw
    [("x", V.int a), ("y", V.int b)] _ f2 PyCls.edge _ _ flds (by decide)
    (by intro kv hkv; simp at hkv; rcases hkv with rfl | rfl <;> rfl)
    (by simpa using hload)
  rw [hv, hflds]
  simp [setF, hasKeyF, lookupF, delF]

/-- RotatedBox(raw_data=dict) keeps exactly the five documented
fields. -/
theorem rboxChar (f : Nat) (a b w0 h0 g0 : Int) (v : V)
    (h : constructRaw f PyCls.rotatedBox
        (V.dict [("cx", V.int a), ("cy", V.int b), ("width", V.int w0),
          ("height", V.int h0), ("angle", V.int g0)]) = Except.ok v) :
    v = V.tdo PyCls.rotatedBox [("cx", V.int a), ("cy", V.int b),
      ("width", V.int w0), ("height", V.int h0), ("angle", V.int g0)] := by
  obtain ⟨f1, f2, prepared, flds, hprep, hload, hv⟩ :=
    constructRaw_dict_chain f PyCls.rotatedBox _ v (by decide) (by decide)
      (by decide) (by decide) (by decide) h
  have hpre : prepared = [("cx", V.int a), ("cy", V.int b),
      ("width", V.int w0), ("height", V.int h0), ("angle", V.int g0),
      ("raw_data", V.dict [("cx", V.int a), ("cy", V.int b),
        ("width", V.int w0), ("height", V.int h0),
        ("angle", V.int g0)])] := by
    rw [prepF_all_none _ f1 PyCls.rotatedBox _ prepared
      (by intro kv hkv; simp at hkv;
          rcases hkv with rfl | rfl | rfl | rfl | rfl <;> rfl) hprep]
    simp [initParamKeys, setF]
  rw [hpre] at hload
  obtain ⟨w, hflds⟩ := loadFieldsF_scalars_raw
    [("cx", V.int a), ("cy", V.int b), ("width", V.int w0),
      ("height", V.int h0), ("angle", V.int g0)] _ f2 PyCls.rotatedBox _ _
    flds (by decide)
    (by intro kv hkv; simp at hkv;
        rcases hkv with rfl | rfl | rfl | rfl | rfl <;> rfl)
    (by simpa using hload)
  rw [hv, hflds]
  simp [setF, hasKeyF, lookupF, delF]

/-- Category(raw_data=dict) keeps exactly the value field. -/
theorem categoryChar (f : Nat) (w0 : V) (hw0 : isScalar w0 = true) (v : V)
    (h : constructRaw f PyCls.category
        (V.dict [("value", w0)]) = Except.ok v) :
    v = V.tdo PyCls.category [("value", w0)] := by
  obtain ⟨f1, f2, prepared, flds, hprep, hload, hv⟩ :=
    constructRaw_dict_chain f PyCls.category _ v (by decide) (by decide)
      (by decide) (by decide) (by decide) h
  have hpre : prepared = [("value", w0),
      ("raw_data", V.dict [("value", w0)])] := by
    rw [prepF_all_none _ f1 PyCls.category _ prepared
      (by intro kv hkv; simp at hkv; rcases hkv with rfl <;> rfl) hprep]
    simp [initParamKeys, setF]
  rw [hpre] at hload
  obtain ⟨w, hflds⟩ := loadFieldsF_scalars_raw
    [("value", w0)] _ f2 PyCls.category _ _ flds (by decide)
    (by intro kv hkv; simp at hkv; rcases hkv with rfl; simpa using hw0)
    (by simpa using hload)
  rw [hv, hflds]
  simp [setF, hasKeyF, lookupF, delF]

/-- Keypoint(raw_data=dict) keeps the four documented fields, with the
state loaded as a generic typed object. -/
theorem keypointChar (f : Nat) (s : String) (a b : Int) (b1 b2 : Bool)
    (v : V)
    (h : constructRaw f PyCls.keypoint
        (V.dict [("name", V.str s), ("x", V.int a), ("y", V.int b),
          ("state", V.dict [("visible", V.bool b1), ("valid", V.bool b2)])])
      = Except.ok v) :
    v = V.tdo PyCls.keypoint [("name", V.str s), ("x", V.int a),
      ("y", V.int b), ("state", V.tdo PyCls.generic
        [("visible", V.bool b1), ("valid", V.bool b2)])] := by
  obtain ⟨f1, f2, prepared, flds, hprep, hload, hv⟩ :=
    constructRaw_dict_chain f PyCls.keypoint _ v (by decide) (by decide)
      (by decide) (by decide) (by decide) h
  have hpre : prepared = [("name", V.str s), ("x", V.int a), ("y", V.int b),
      ("state", V.dict [("visible", V.bool b1), ("valid", V.bool b2)]),
      ("raw_data", V.dict [("name", V.str s), ("x", V.int a), ("y", V.int b),
        ("state", V.dict [("visible", V.bool b1),
          ("valid", V.bool b2)])])] := by
    rw [prepF_all_none _ f1 PyCls.keypoint _ prepared
      (by intro kv hkv; simp at hkv;
          rcases hkv with rfl | rfl | rfl | rfl <;> rfl) hprep]
    simp [initParamKeys, setF]
  rw [hpre] at hload
  cases f2 with
  | zero => simp [loadFieldsF] at hload
  | succ f2 =>
      have h1 := loadFieldsF_scalar_step PyCls.keypoint (by decide) _
        "name" (V.str s) _ _ flds f2 rfl hload
      cases f2 with
      | zero => simp [loadFieldsF] at h1
      | succ f2 =>
          have h2 := loadFieldsF_scalar_step PyCls.keypoint (by decide) _
            "x" (V.int a) _ _ flds f2 rfl h1
          cases f2 with
          | zero => simp [loadFieldsF] at h2
          | succ f2 =>
              have h3 := loadFieldsF_scalar_step PyCls.keypoint (by decide) _
                "y" (V.int b) _ _ flds f2 rfl h2
              cases f2 with
              | zero => simp [loadFieldsF] at h3
              | succ f2 =>
                  obtain ⟨w4, hw4, h4⟩ := loadFieldsF_cons_inv PyCls.keypoint
                    (by decide) _ "state"
                    (V.dict [("visible", V.bool b1), ("valid", V.bool b2)])
                    _ _ flds f2 h3
                  have hfcm : fcmGet PyCls.keypoint "state" = none := rfl
                  rw [hfcm] at hw4
                  have hw4' := stateChar f2 b1 b2 w4 hw4
                  cases f2 with
                  | zero => simp [loadFieldsF] at h4
                  | succ f2 =>
                      obtain ⟨w5, hw5, h5⟩ := loadFieldsF_cons_inv
                        PyCls.keypoint (by decide) _ "raw_data" _ _ _ flds f2
                        h4
                      rw [loadFieldsF_nil] at h5
                      have hflds : flds = setF (setF (setF (setF (setF []
                          "name" (V.str s)) "x" (V.int a)) "y" (V.int b))
                          "state" w4) "raw_data" w5 := by
                        simpa using h5.symm
                      rw [hv, hflds, hw4']
                      simp [setF, hasKeyF, lookupF, delF]

/-- Cuboid2D(raw_data=dict) keeps the near and far fields, each loaded
as a BoundingBox with its four fields. -/
theorem cuboidChar (f : Nat) (a1 b1 w1 h1 a2 b2 w2 h2 : Int) (v : V)
    (h : constructRaw f PyCls.cuboid2D
        (V.dict [("near", V.dict [("x", V.int a1), ("y", V.int b1),
            ("width", V.int w1), ("height", V.int h1)]),
          ("far", V.dict [("x", V.int a2), ("y", V.int b2),
            ("width", V.int w2), ("height", V.int h2)])]) = Except.ok v) :
    v = V.tdo PyCls.cuboid2D
      [("near", V.tdo PyCls.boundingBox [("x", V.int a1), ("y", V.int b1),
        ("width", V.int w1), ("height", V.int h1)]),
       ("far", V.tdo PyCls.boundingBox [("x", V.int a2), ("y", V.int b2),
        ("width", V.int w2), ("height", V.int h2)])] := by
  obtain ⟨f1, f2, prepared, flds, hprep, hload, hv⟩ :=
    constructRaw_dict_chain f PyCls.cuboid2D _ v (by decide) (by decide)
      (by decide) (by decide) (by decide) h
  cases f1 with
  | zero => simp [prepF] at hprep
  | succ f1 =>
      obtain ⟨q1, hq1, hprep⟩ := prepF_cons_some_dict f1 PyCls.cuboid2D
        "near" _ PyCls.boundingBox _ _ prepared rfl (by intro xs hxs; cases hxs)
        hprep
      have hq1' := boxChar f1 a1 b1 w1 h1 q1 hq1
      cases f1 with
      | zero => simp [prepF] at hprep
      | succ f1 =>
          obtain ⟨q2, hq2, hprep⟩ := prepF_cons_some_dict f1 PyCls.cuboid2D
            "far" _ PyCls.boundingBox _ _ prepared rfl
            (by intro xs hxs; cases hxs) hprep
          have hq2' := boxChar f1 a2 b2 w2 h2 q2 hq2
          rw [prepF_nil] at hprep
          have hpre : prepared = [("near", q1), ("far", q2),
              ("raw_data", V.dict [("near", V.dict [("x", V.int a1),
                ("y", V.int b1), ("width", V.int w1), ("height", V.int h1)]),
                ("far", V.dict [("x", V.int a2), ("y", V.int b2),
                  ("width", V.int w2), ("height", V.int h2)])])] := by
            have := hprep.symm
            simpa [initParamKeys, setF] using this
          rw [hpre] at hload
          cases f2 with
          | zero => simp [loadFieldsF] at hload
          | succ f2 =>
              obtain ⟨u1, hu1, hload⟩ := loadFieldsF_cons_inv PyCls.cuboid2D
                (by decide) _ "near" q1 _ _ flds f2 hload
              rw [hq1'] at hu1
              have hu1' := convert_tdo f2 _ _ _ u1 hu1
              cases f2 with
              | zero => simp [loadFieldsF] at hload
              | succ f2 =>
                  obtain ⟨u2, hu2, hload⟩ := loadFieldsF_cons_inv
                    PyCls.cuboid2D (by decide) _ "far" q2 _ _ flds f2 hload
                  rw [hq2'] at hu2
                  have hu2' := convert_tdo f2 _ _ _ u2 hu2
                  cases f2 with
                  | zero => simp [loadFieldsF] at hload
                  | succ f2 =>
                      obtain ⟨u3, hu3, hload⟩ := loadFieldsF_cons_inv
                        PyCls.cuboid2D (by decide) _ "raw_data" _ _ _ flds f2
                        hload
                      rw [loadFieldsF_nil] at hload
                      have hflds : flds = setF (setF (setF [] "near" u1)
                          "far" u2) "raw_data" u3 := by
                        simpa using hload.symm
                      rw [hv, hflds, hu1', hu2']
                      simp [setF, hasKeyF, lookupF, delF]

theorem forallTwo_right_mem {α β : Type} {R : α → β → Prop} :
    ∀ {xs : List α} {ys : List β}, List.Forall₂ R xs ys →
      ∀ y ∈ ys, ∃ x, R x y := by
  intro xs ys h
  induction h with
  | nil => intro y hy; cases hy
  | cons h1 _ ih =>
      intro y hy
      rcases List.mem_cons.mp hy with rfl | hy
      · exact ⟨_, h1⟩
      · exact ih y hy

/-- Raw child construction over a list of documented points pairs each
raw point with its Point object. -/
theorem pointListChar :
    ∀ (ps : List V) (f : Nat) (qs : List V),
      (∀ p ∈ ps, wfPointRaw p) →
      constructRawListF f PyCls.point ps = Except.ok qs →
      List.Forall₂ (fun p q => ∃ a b : Int,
        p = V.dict [("x", V.int a), ("y", V.int b)] ∧
        q = V.tdo PyCls.point [("x", V.int a), ("y", V.int b)]) ps qs := by
  intro ps
  induction ps with
  | nil =>
      intro f qs _ h
      have hq : qs = [] := by
        cases f <;> simpa [constructRawListF] using h.symm
      rw [hq]
      exact List.Forall₂.nil
  | cons p rest ih =>
      intro f qs hwf h
      cases f with
      | zero => simp [constructRawListF] at h
      | succ f' =>
          simp only [constructRawListF] at h
          obtain ⟨q, hq, h⟩ := resBind_ok h
          obtain ⟨tailq, htailq, h⟩ := resBind_ok h
          have hcons : qs = q :: tailq := by simpa using h.symm
          obtain ⟨a, b, hp⟩ := hwf p (by simp)
          rw [hp] at hq
          have hq' := pointChar f' a b q hq
          rw [hcons]
          exact List.Forall₂.cons ⟨a, b, hp, hq'⟩
            (ih f' tailq (fun x hx => hwf x (by simp [hx])) htailq)

/-- Raw child construction over a list of documented keypoints pairs
each raw keypoint with its Keypoint object. -/
theorem keypointListChar :
    ∀ (ps : List V) (f : Nat) (qs : List V),
      (∀ p ∈ ps, wfKeypointRaw p) →
      constructRawListF f PyCls.keypoint ps = Except.ok qs →
      List.Forall₂ (fun p q => ∃ (s : String) (a b : Int) (b1 b2 : Bool),
        p = V.dict [("name", V.str s), ("x", V.int a), ("y", V.int b),
          ("state", V.dict [("visible", V.bool b1),
            ("valid", V.bool b2)])] ∧
        q = V.tdo PyCls.keypoint [("name", V.str s), ("x", V.int a),
          ("y", V.int b), ("state", V.tdo PyCls.generic
            [("visible", V.bool b1), ("valid", V.bool b2)])]) ps qs := by
  intro ps
  induction ps with
  | nil =>
      intro f qs _ h
      have hq : qs = [] := by
        cases f <;> simpa [constructRawListF] using h.symm
      rw [hq]
      exact List.Forall₂.nil
  | cons p rest ih =>
      intro f qs hwf h
      cases f with
      | zero => simp [constructRawListF] at h
      | succ f' =>
          simp only [constructRawListF] at h
          obtain ⟨q, hq, h⟩ := resBind_ok h
          obtain ⟨tailq, htailq, h⟩ := resBind_ok h
          have hcons : qs = q :: tailq := by simpa using h.symm
          obtain ⟨s, a, b, st, hst, hp⟩ := hwf p (by simp)
          obtain ⟨b1, b2, hstv⟩ := hst
          rw [hstv] at hp
          rw [hp] at hq
          have hq' := keypointChar f' s a b b1 b2 q hq
          rw [hcons]
          exact List.Forall₂.cons ⟨s, a, b, b1, b2, hp, hq'⟩
            (ih f' tailq (fun x hx => hwf x (by simp [hx])) htailq)

/-- Raw child construction over a list of documented edges pairs each
raw edge with its Edge object. -/
theorem edgeListChar :
    ∀ (ps : List V) (f : Nat) (qs : List V),
      (∀ p ∈ ps, wfEdgeRaw p) →
      constructRawListF f PyCls.edge ps = Except.ok qs →
      List.Forall₂ (fun p q => ∃ a b : Int,
        p = V.dict [("x", V.int a), ("y", V.int b)] ∧
        q = V.tdo PyCls.edge [("x", V.int a), ("y", V.int b)]) ps qs := by
  intro ps
  induction ps with
  | nil =>
      intro f qs _ h
      have hq : qs = [] := by
        cases f <;> simpa [constructRawListF] using h.symm
      rw [hq]
      exact List.Forall₂.nil
  | cons p rest ih =>
      intro f qs hwf h
      cases f with
      | zero => simp [constructRawListF] at h
      | succ f' =>
          simp only [constructRawListF] at h
          obtain ⟨q, hq, h⟩ := resBind_ok h
          obtain ⟨tailq, htailq, h⟩ := resBind_ok h
          have hcons : qs = q :: tailq := by simpa using h.symm
          obtain ⟨a, b, hp⟩ := hwf p (by simp)
          rw [hp] at hq
          have hq' := edgeChar f' a b q hq
          rw [hcons]
          exact List.Forall₂.cons ⟨a, b, hp, hq'⟩
            (ih f' tailq (fun x hx => hwf x (by simp [hx])) htailq)

/-- Keypoints(raw_data=dict) keeps the points and edges lists, with
every element loaded as its typed counterpart. -/
theorem keypointsChar (f : Nat) (pts es : List V) (v : V)
    (hpts : ∀ p ∈ pts, wfKeypointRaw p) (hes : ∀ e ∈ es, wfEdgeRaw e)
    (h : constructRaw f PyCls.keypoints
        (V.dict [("points", V.list pts), ("edges", V.list es)])
      = Except.ok v) :
    ∃ qs rs, v = V.tdo PyCls.keypoints
        [("points", V.list qs), ("edges", V.list rs)] ∧
      List.Forall₂ (fun p q => ∃ (s : String) (a b : Int) (b1 b2 : Bool),
        p = V.dict [("name", V.str s), ("x", V.int a), ("y", V.int b),
          ("state", V.dict [("visible", V.bool b1),
            ("valid", V.bool b2)])] ∧
        q = V.tdo PyCls.keypoint [("name", V.str s), ("x", V.int a),
          ("y", V.int b), ("state", V.tdo PyCls.generic
            [("visible", V.bool b1), ("valid", V.bool b2)])]) pts qs ∧
      List.Forall₂ (fun p q => ∃ a b : Int,
        p = V.dict [("x", V.int a), ("y", V.int b)] ∧
        q = V.tdo PyCls.edge [("x", V.int a), ("y", V.int b)]) es rs := by
  obtain ⟨f1, f2, prepared, flds, hprep, hload, hv⟩ :=
    constructRaw_dict_chain f PyCls.keypoints _ v (by decide) (by decide)
      (by decide) (by decide) (by decide) h
  cases f1 with
  | zero => simp [prepF] at hprep
  | succ f1 =>
      obtain ⟨qs, hqs, hprep⟩ := prepF_cons_some_list f1 PyCls.keypoints
        "points" pts PyCls.keypoint _ _ prepared rfl hprep
      have hkp := keypointListChar pts f1 qs hpts hqs
      cases f1 with
      | zero => simp [prepF] at hprep
      | succ f1 =>
          obtain ⟨rs, hrs, hprep⟩ := prepF_cons_some_list f1 PyCls.keypoints
            "edges" es PyCls.edge _ _ prepared rfl hprep
          have hed := edgeListChar es f1 rs hes hrs
          rw [prepF_nil] at hprep
          have hpre : prepared = [("points", V.list qs),
              ("edges", V.list rs),
              ("raw_data", V.dict [("points", V.list pts),
                ("edges", V.list es)])] := by
            have := hprep.symm
            simpa [initParamKeys, setF] using this
          rw [hpre] at hload
          cases f2 with
          | zero => simp [loadFieldsF] at hload
          | succ f2 =>
              obtain ⟨u1, hu1, hload⟩ := loadFieldsF_cons_inv PyCls.keypoints
                (by decide) _ "points" (V.list qs) _ _ flds f2 hload
              have hu1' : u1 = V.list qs := by
                refine convert_tdoList f2 _ qs u1 ?_ hu1
                intro q hq
                obtain ⟨p, hrel⟩ := forallTwo_right_mem hkp q hq
                obtain ⟨s, a, b, b1, b2, _, hq'⟩ := hrel
                exact ⟨PyCls.keypoint, _, hq'⟩
              cases f2 with
              | zero => simp [loadFieldsF] at hload
              | succ f2 =>
                  obtain ⟨u2, hu2, hload⟩ := loadFieldsF_cons_inv
                    PyCls.keypoints (by decide) _ "edges" (V.list rs) _ _
                    flds f2 hload
                  have hu2' : u2 = V.list rs := by
                    refine convert_tdoList f2 _ rs u2 ?_ hu2
                    intro r hr
                    obtain ⟨e, hrel⟩ := forallTwo_right_mem hed r hr
                    obtain ⟨a, b, _, hr'⟩ := hrel
                    exact ⟨PyCls.edge, _, hr'⟩
                  cases f2 with
                  | zero => simp [loadFieldsF] at hload
                  | succ f2 =>
                      obtain ⟨u3, hu3, hload⟩ := loadFieldsF_cons_inv
                        PyCls.keypoints (by decide) _ "raw_data" _ _ _ flds
                        f2 hload
                      rw [loadFieldsF_nil] at hload
                      have hflds : flds = setF (setF (setF [] "points" u1)
                          "edges" u2) "raw_data" u3 := by
                        simpa using hload.symm
                      refine ⟨qs, rs, ?_, hkp, hed⟩
                      rw [hv, hflds, hu1', hu2']
                      simp [setF, hasKeyF, lookupF, delF]

/-- Contour(raw_data=list) keeps exactly the points field, with every
element loaded as a Point. -/
theorem contourChar (f : Nat) (ps0 : List V) (v : V)
    (hwf : ∀ p ∈ ps0, wfPointRaw p)
    (h : constructRaw f PyCls.contour (V.list ps0) = Except.ok v) :
    ∃ qs, v = V.tdo PyCls.contour [("points", V.list qs)] ∧
      List.Forall₂ (fun p q => ∃ a b : Int,
        p = V.dict [("x", V.int a), ("y", V.int b)] ∧
        q = V.tdo PyCls.point [("x", V.int a), ("y", V.int b)]) ps0 qs := by
  obtain ⟨f1, f2, items, flds, hitems, hload, hv⟩ :=
    constructRaw_list_chain f PyCls.contour ps0 v "points" PyCls.point
      (by decide) (by decide) (by decide) (by decide) h
  have hpt := pointListChar ps0 f1 items hwf hitems
  have hdata : setF ((initParamKeys PyCls.contour).map
      (fun k => (k, V.null)) ++ [("raw_data", V.list ps0)]) "points"
      (V.list items)
      = [("points", V.list items), ("raw_data", V.list ps0)] := by
    simp [initParamKeys, setF]
  rw [hdata] at hload
  cases f2 with
  | zero => simp [loadFieldsF] at hload
  | succ f2 =>
      obtain ⟨u1, hu1, hload⟩ := loadFieldsF_cons_inv PyCls.contour
        (by decide) _ "points" (V.list items) _ _ flds f2 hload
      have hu1' : u1 = V.list items := by
        refine convert_tdoList f2 _ items u1 ?_ hu1
        intro q hq
        obtain ⟨p, hrel⟩ := forallTwo_right_mem hpt q hq
        obtain ⟨a, b, _, hq'⟩ := hrel
        exact ⟨PyCls.point, _, hq'⟩
      cases f2 with
      | zero => simp [loadFieldsF] at hload
      | succ f2 =>
          obtain ⟨u2, hu2, hload⟩ := loadFieldsF_cons_inv PyCls.contour
            (by decide) _ "raw_data" _ _ _ flds f2 hload
          rw [loadFieldsF_nil] at hload
          have hflds : flds = setF (setF [] "points" u1) "raw_data" u2 := by
            simpa using hload.symm
          refine ⟨items, ?_, hpt⟩
          rw [hv, hflds, hu1']
          simp [setF, hasKeyF, lookupF, delF]

/-- Path(raw_data=list) keeps exactly the points field, with every
element loaded as a Point. -/
theorem pathChar (f : Nat) (ps0 : List V) (v : V)
    (hwf : ∀ p ∈ ps0, wfPointRaw p)
    (h : constructRaw f PyCls.path (V.list ps0) = Except.ok v) :
    ∃ qs, v = V.tdo PyCls.path [("points", V.list qs)] ∧
      List.Forall₂ (fun p q => ∃ a b : Int,
        p = V.dict [("x", V.int a), ("y", V.int b)] ∧
        q = V.tdo PyCls.point [("x", V.int a), ("y", V.int b)]) ps0 qs := by
  obtain ⟨f1, f2, items, flds, hitems, hload, hv⟩ :=
    constructRaw_list_chain f PyCls.path ps0 v "points" PyCls.point
      (by decide) (by decide) (by decide) (by decide) h
  have hpt := pointListChar ps0 f1 items hwf hitems
  have hdata : setF ((initParamKeys PyCls.path).map
      (fun k => (k, V.null)) ++ [("raw_data", V.list ps0)]) "points"
      (V.list items)
      = [("points", V.list items), ("raw_data", V.list ps0)] := by
    simp [initParamKeys, setF]
  rw [hdata] at hload
  cases f2 with
  | zero => simp [loadFieldsF] at hload
  | succ f2 =>
      obtain ⟨u1, hu1, hload⟩ := loadFieldsF_cons_inv PyCls.path
        (by decide) _ "points" (V.list items) _ _ flds f2 hload
      have hu1' : u1 = V.list items := by
        refine convert_tdoList f2 _ items u1 ?_ hu1
        intro q hq
        obtain ⟨p, hrel⟩ := forallTwo_right_mem hpt q hq
        obtain ⟨a, b, _, hq'⟩ := hrel
        exact ⟨PyCls.point, _, hq'⟩
      cases f2 with
      | zero => simp [loadFieldsF] at hload
      | succ f2 =>
          obtain ⟨u2, hu2, hload⟩ := loadFieldsF_cons_inv PyCls.path
            (by decide) _ "raw_data" _ _ _ flds f2 hload
          rw [loadFieldsF_nil] at hload
          have hflds : flds = setF (setF [] "points" u1) "raw_data" u2 := by
            simpa using hload.symm
          refine ⟨items, ?_, hpt⟩
          rw [hv, hflds, hu1']
          simp [setF, hasKeyF, lookupF, delF]

/-- Raw child construction over a list of documented contours pairs
each raw contour with its Contour object. -/
theorem contourListChar :
    ∀ (cs : List V) (f : Nat) (qs : List V),
      (∀ c ∈ cs, wfContourRaw c) →
      constructRawListF f PyCls.contour cs = Except.ok qs →
      List.Forall₂ (fun cr q => ∃ (pts qs' : List V),
        cr = V.list pts ∧
        q = V.tdo PyCls.contour [("points", V.list qs')] ∧
        List.Forall₂ (fun p w => ∃ a b : Int,
          p = V.dict [("x", V.int a), ("y", V.int b)] ∧
          w = V.tdo PyCls.point [("x", V.int a), ("y", V.int b)]) pts qs')
        cs qs := by
  intro cs
  induction cs with
  | nil =>
      intro f qs _ h
      have hq : qs = [] := by
        cases f <;> simpa [constructRawListF] using h.symm
      rw [hq]
      exact List.Forall₂.nil
  | cons cr rest ih =>
      intro f qs hwf h
      cases f with
      | zero => simp [constructRawListF] at h
      | succ f' =>
          simp only [constructRawListF] at h
          obtain ⟨q, hq, h⟩ := resBind_ok h
          obtain ⟨tailq, htailq, h⟩ := resBind_ok h
          have hcons : qs = q :: tailq := by simpa using h.symm
          obtain ⟨pts, hptswf, hcr⟩ := hwf cr (by simp)
          rw [hcr] at hq
          obtain ⟨qs', hq', hforall⟩ := contourChar f' pts q hptswf hq
          rw [hcons]
          exact List.Forall₂.cons ⟨pts, qs', hcr, hq', hforall⟩
            (ih f' tailq (fun x hx => hwf x (by simp [hx])) htailq)

/-- Raw child construction over a list of documented paths pairs each
raw path with its Path object. -/
theorem pathListChar :
    ∀ (cs : List V) (f : Nat) (qs : List V),
      (∀ c ∈ cs, wfContourRaw c) →
      constructRawListF f PyCls.path cs = Except.ok qs →
      List.Forall₂ (fun cr q => ∃ (pts qs' : List V),
        cr = V.list pts ∧
        q = V.tdo PyCls.path [("points", V.list qs')] ∧
        List.Forall₂ (fun p w => ∃ a b : Int,
          p = V.dict [("x", V.int a), ("y", V.int b)] ∧
          w = V.tdo PyCls.point [("x", V.int a), ("y", V.int b)]) pts qs')
        cs qs := by
  intro cs
  induction cs with
  | nil =>
      intro f qs _ h
      have hq : qs = [] := by
        cases f <;> simpa [constructRawListF] using h.symm
      rw [hq]
      exact List.Forall₂.nil
  | cons cr rest ih =>
      intro f qs hwf h
      cases f with
      | zero => simp [constructRawListF] at h
      | succ f' =>
          simp only [constructRawListF] at h
          obtain ⟨q, hq, h⟩ := resBind_ok h
          obtain ⟨tailq, htailq, h⟩ := resBind_ok h
          have hcons : qs = q :: tailq := by simpa using h.symm
          obtain ⟨pts, hptswf, hcr⟩ := hwf cr (by simp)
          rw [hcr] at hq
          obtain ⟨qs', hq', hforall⟩ := pathChar f' pts q hptswf hq
          rw [hcons]
          exact List.Forall₂.cons ⟨pts, qs', hcr, hq', hforall⟩
            (ih f' tailq (fun x hx => hwf x (by simp [hx])) htailq)

/-- Face(raw_data=list) keeps exactly the contours field, with every
element loaded as a Contour. -/
theorem faceChar (f : Nat) (cs : List V) (v : V)
    (hwf : ∀ c ∈ cs, wfContourRaw c)
    (h : constructRaw f PyCls.face (V.list cs) = Except.ok v) :
    ∃ qs, v = V.tdo PyCls.face [("contours", V.list qs)] ∧
      List.Forall₂ (fun cr q => ∃ (pts qs' : List V),
        cr = V.list pts ∧
        q = V.tdo PyCls.contour [("points", V.list qs')] ∧
        List.Forall₂ (fun p w => ∃ a b : Int,
          p = V.dict [("x", V.int a), ("y", V.int b)] ∧
          w = V.tdo PyCls.point [("x", V.int a), ("y", V.int b)]) pts qs')
        cs qs := by
  obtain ⟨f1, f2, items, flds, hitems, hload, hv⟩ :=
    constructRaw_list_chain f PyCls.face cs v "contours" PyCls.contour
      (by decide) (by decide) (by decide) (by decide) h
  have hct := contourListChar cs f1 items hwf hitems
  have hdata : setF ((initParamKeys PyCls.face).map
      (fun k => (k, V.null)) ++ [("raw_data", V.list cs)]) "contours"
      (V.list items)
      = [("contours", V.list items), ("raw_data", V.list cs)] := by
    simp [initParamKeys, setF]
  rw [hdata] at hload
  cases f2 with
  | zero => simp [loadFieldsF] at hload
  | succ f2 =>
      obtain ⟨u1, hu1, hload⟩ := loadFieldsF_cons_inv PyCls.face
        (by decide) _ "contours" (V.list items) _ _ flds f2 hload
      have hu1' : u1 = V.list items := by
        refine convert_tdoList f2 _ items u1 ?_ hu1
        intro q hq
        obtain ⟨p, hrel⟩ := forallTwo_right_mem hct q hq
        obtain ⟨pts, qs', _, hq', _⟩ := hrel
        exact ⟨PyCls.contour, _, hq'⟩
      cases f2 with
      | zero => simp [loadFieldsF] at hload
      | succ f2 =>
          obtain ⟨u2, hu2, hload⟩ := loadFieldsF_cons_inv PyCls.face
            (by decide) _ "raw_data" _ _ _ flds f2 hload
          rw [loadFieldsF_nil] at hload
          have hflds : flds = setF (setF [] "contours" u1) "raw_data" u2 := by
            simpa using hload.symm
          refine ⟨items, ?_, hct⟩
          rw [hv, hflds, hu1']
          simp [setF, hasKeyF, lookupF, delF]

/-- Raw child construction over a list of documented faces pairs each
raw face with its Face object. -/
theorem faceListChar :
    ∀ (fsr : List V) (f : Nat) (qs : List V),
      (∀ x ∈ fsr, wfFaceRaw x) →
      constructRawListF f PyCls.face fsr = Except.ok qs →
      List.Forall₂ (fun fr q => ∃ (cs qs0 : List V),
        fr = V.list cs ∧
        q = V.tdo PyCls.face [("contours", V.list qs0)] ∧
        List.Forall₂ (fun cr w => ∃ (pts qs' : List V),
          cr = V.list pts ∧
          w = V.tdo PyCls.contour [("points", V.list qs')] ∧
          List.Forall₂ (fun p u => ∃ a b : Int,
            p = V.dict [("x", V.int a), ("y", V.int b)] ∧
            u = V.tdo PyCls.point [("x", V.int a), ("y", V.int b)]) pts qs')
          cs qs0) fsr qs := by
  intro fsr
  induction fsr with
  | nil =>
      intro f qs _ h
      have hq : qs = [] := by
        cases f <;> simpa [constructRawListF] using h.symm
      rw [hq]
      exact List.Forall₂.nil
  | cons fr rest ih =>
      intro f qs hwf h
      cases f with
      | zero => simp [constructRawListF] at h
      | succ f' =>
          simp only [constructRawListF] at h
          obtain ⟨q, hq, h⟩ := resBind_ok h
          obtain ⟨tailq, htailq, h⟩ := resBind_ok h
          have hcons : qs = q :: tailq := by simpa using h.symm
          obtain ⟨cs, hcswf, hfr⟩ := hwf fr (by simp)
          rw [hfr] at hq
          obtain ⟨qs0, hq', hforall⟩ := faceChar f' cs q hcswf hq
          rw [hcons]
          exact List.Forall₂.cons ⟨cs, qs0, hfr, hq', hforall⟩
            (ih f' tailq (fun x hx => hwf x (by simp [hx])) htailq)

/-- Inversion of the cls(raw_data=dict) pipeline for an AnnotationType
subclass with a one-entry raw-data field map: the mapped entry is
prepared over the constructor parameters and loaded. -/
theorem constructRaw_dictmap_chain (f : Nat) (c : PyCls) (fs : Fields)
    (v : V) (rk fk : String) (rv : V)
    (hc1 : c ≠ PyCls.annotation) (hann : isAnnotationType c = true)
    (hmap : rawDataFieldMap c = [(rk, fk)])
    (hid : "id" ∉ initParamKeys c)
    (hlook : lookupF fs rk = some rv)
    (h : constructRaw f c (V.dict fs) = Except.ok v) :
    ∃ (f1 f2 : Nat) (prepared flds : Fields),
      prepF f1 c [(fk, rv)]
          ((initParamKeys c).map (fun k => (k, V.null)) ++
            [("raw_data", V.dict fs)]) = Except.ok prepared ∧
      loadFieldsF f2 c prepared prepared [] = Except.ok flds ∧
      v = V.tdo c
        (if hasKeyF flds "raw_data" then delF flds "raw_data" else flds) := by
  cases f with
  | zero => simp [constructRaw] at h
  | succ f =>
      simp only [constructRaw] at h
      obtain ⟨flds0, hinit, h⟩ := resBind_ok h
      have hv : v = V.tdo c flds0 := by simpa using h.symm
      cases f with
      | zero => simp [initObject] at hinit
      | succ f =>
          rw [show initObject (f + 1) c
              ((initParamKeys c).map (fun k => (k, V.null)) ++
                [("raw_data", V.dict fs)])
              = baseInit f c ((initParamKeys c).map (fun k => (k, V.null)) ++
                [("raw_data", V.dict fs)]) from by
            cases c <;> simp_all [initObject]] at hinit
          cases f with
          | zero => simp [baseInit] at hinit
          | succ f =>
              have hrd2 : "raw_data" ∉ initParamKeys c := by
                cases c <;> simp [initParamKeys]
              simp only [baseInit, getF, lookup_params_ne _ _ "id" hid
                (by decide), Option.getD_none, truthy, Bool.false_eq_true,
                if_false, if_neg,
                lookup_params_rawdata _ _ hrd2, Option.getD_some, hann,
                if_true, if_pos] at hinit
              obtain ⟨vol, hvol, hinit⟩ := resBind_ok hinit
              cases f with
              | zero => simp [loadFromRawData] at hinit
              | succ f =>
                  simp only [loadFromRawData] at hinit
                  cases f with
                  | zero => simp [loadFromRawDataDict] at hinit
                  | succ f =>
                      simp only [loadFromRawDataDict, hmap,
                        applyRawDataFieldMap, hlook, List.isEmpty_cons,
                        Bool.false_eq_true, if_false, if_neg, ok_bind]
                        at hinit
                      obtain ⟨prepared, hprep, hinit⟩ := resBind_ok hinit
                      obtain ⟨flds, hload, hinit⟩ := resBind_ok hinit
                      have hflds0 : flds0 = if hasKeyF flds "raw_data" then
                          delF flds "raw_data" else flds := by
                        simpa using hinit.symm
                      cases f with
                      | zero => simp [loadFromDict] at hload
                      | succ f =>
                          simp only [loadFromDict] at hload
                          refine ⟨f + 1, f, prepared, flds, hprep, hload, ?_⟩
                          rw [hv, hflds0]

/-- Polygon(raw_data=dict) keeps exactly the faces field built from
the points entry, with every element loaded as a Face. -/
theorem polygonChar (f : Nat) (faces : List V) (v : V)
    (hwf : ∀ x ∈ faces, wfFaceRaw x)
    (h : constructRaw f PyCls.polygon
        (V.dict [("points", V.list faces)]) = Except.ok v) :
    ∃ qs, v = V.tdo PyCls.polygon [("faces", V.list qs)] ∧
      List.Forall₂ (fun fr q => ∃ (cs qs0 : List V),
        fr = V.list cs ∧
        q = V.tdo PyCls.face [("contours", V.list qs0)] ∧
        List.Forall₂ (fun cr w => ∃ (pts qs' : List V),
          cr = V.list pts ∧
          w = V.tdo PyCls.contour [("points", V.list qs')] ∧
          List.Forall₂ (fun p u => ∃ a b : Int,
            p = V.dict [("x", V.int a), ("y", V.int b)] ∧
            u = V.tdo PyCls.point [("x", V.int a), ("y", V.int b)]) pts qs')
          cs qs0) faces qs := by
  obtain ⟨f1, f2, prepared, flds, hprep, hload, hv⟩ :=
    constructRaw_dictmap_chain f PyCls.polygon [("points", V.list faces)] v
      "points" "faces" (V.list faces) (by decide) (by decide) (by decide)
      (by decide) rfl h
  cases f1 with
  | zero => simp [prepF] at hprep
  | succ f1 =>
      obtain ⟨qs, hqs, hprep⟩ := prepF_cons_some_list f1 PyCls.polygon
        "faces" faces PyCls.face _ _ prepared rfl hprep
      have hfc := faceListChar faces f1 qs hwf hqs
      rw [prepF_nil] at hprep
      have hpre : prepared = [("faces", V.list qs),
          ("raw_data", V.dict [("points", V.list faces)])] := by
        have := hprep.symm
        simpa [initParamKeys, setF] using this
      rw [hpre] at hload
      cases f2 with
      | zero => simp [loadFieldsF] at hload
      | succ f2 =>
          obtain ⟨u1, hu1, hload⟩ := loadFieldsF_cons_inv PyCls.polygon
            (by decide) _ "faces" (V.list qs) _ _ flds f2 hload
          have hu1' : u1 = V.list qs := by
            refine convert_tdoList f2 _ qs u1 ?_ hu1
            intro q hq
            obtain ⟨p, hrel⟩ := forallTwo_right_mem hfc q hq
            obtain ⟨cs, qs0, _, hq', _⟩ := hrel
            exact ⟨PyCls.face, _, hq'⟩
          cases f2 with
          | zero => simp [loadFieldsF] at hload
          | succ f2 =>
              obtain ⟨u2, hu2, hload⟩ := loadFieldsF_cons_inv PyCls.polygon
                (by decide) _ "raw_data" _ _ _ flds f2 hload
              rw [loadFieldsF_nil] at hload
              have hflds : flds = setF (setF [] "faces" u1) "raw_data"
                  u2 := by
                simpa using hload.symm
              refine ⟨qs, ?_, hfc⟩
              rw [hv, hflds, hu1']
              simp [setF, hasKeyF, lookupF, delF]

/-- Polyline(raw_data=dict) keeps exactly the paths field built from
the points entry, with every element loaded as a Path. -/
theorem polylineChar (f : Nat) (paths : List V) (v : V)
    (hwf : ∀ x ∈ paths, wfContourRaw x)
    (h : constructRaw f PyCls.polyline
        (V.dict [("points", V.list paths)]) = Except.ok v) :
    ∃ qs, v = V.tdo PyCls.polyline [("paths", V.list qs)] ∧
      List.Forall₂ (fun cr q => ∃ (pts qs' : List V),
        cr = V.list pts ∧
        q = V.tdo PyCls.path [("points", V.list qs')] ∧
        List.Forall₂ (fun p w => ∃ a b : Int,
          p = V.dict [("x", V.int a), ("y", V.int b)] ∧
          w = V.tdo PyCls.point [("x", V.int a), ("y", V.int b)]) pts qs')
        paths qs := by
  obtain ⟨f1, f2, prepared, flds, hprep, hload, hv⟩ :=
    constructRaw_dictmap_chain f PyCls.polyline [("points", V.list paths)] v
      "points" "paths" (V.list paths) (by decide) (by decide) (by decide)
      (by decide) rfl h
  cases f1 with
  | zero => simp [prepF] at hprep
  | succ f1 =>
      obtain ⟨qs, hqs, hprep⟩ := prepF_cons_some_list f1 PyCls.polyline
        "paths" paths PyCls.path _ _ prepared rfl hprep
      have hpa := pathListChar paths f1 qs hwf hqs
      rw [prepF_nil] at hprep
      have hpre : prepared = [("paths", V.list qs),
          ("raw_data", V.dict [("points", V.list paths)])] := by
        have := hprep.symm
        simpa [initParamKeys, setF] using this
      rw [hpre] at hload
      cases f2 with
      | zero => simp [loadFieldsF] at hload
      | succ f2 =>
          obtain ⟨u1, hu1, hload⟩ := loadFieldsF_cons_inv PyCls.polyline
            (by decide) _ "paths" (V.list qs) _ _ flds f2 hload
          have hu1' : u1 = V.list qs := by
            refine convert_tdoList f2 _ qs u1 ?_ hu1
            intro q hq
            obtain ⟨p, hrel⟩ := forallTwo_right_mem hpa q hq
            obtain ⟨pts, qs', _, hq', _⟩ := hrel
            exact ⟨PyCls.path, _, hq'⟩
          cases f2 with
          | zero => simp [loadFieldsF] at hload
          | succ f2 =>
              obtain ⟨u2, hu2, hload⟩ := loadFieldsF_cons_inv PyCls.polyline
                (by decide) _ "raw_data" _ _ _ flds f2 hload
              rw [loadFieldsF_nil] at hload
              have hflds : flds = setF (setF [] "paths" u1) "raw_data"
                  u2 := by
                simpa using hload.symm
              refine ⟨qs, ?_, hpa⟩
              rw [hv, hflds, hu1']
              simp [setF, hasKeyF, lookupF, delF]

/-! ### C1 support: flatten-side inversion lemmas -/

theorem objToDict_nontdo (g : Nat) (v w : V)
    (hv : ∀ cl gs, v ≠ V.tdo cl gs)
    (h : objToDict g v = Except.ok w) : w = v := by
  cases g with
  | zero => simp [objToDict] at h
  | succ g' =>
      cases v with
      | tdo cl gs => exact absurd rfl (hv cl gs)
      | null => simpa [objToDict] using h.symm
      | bool b => simpa [objToDict] using h.symm
      | int n => simpa [objToDict] using h.symm
      | str s => simpa [objToDict] using h.symm
      | list xs => simpa [objToDict] using h.symm
      | dict fs => simpa [objToDict] using h.symm

theorem objToDict_tdo_inv (g : Nat) (cl : PyCls) (gs : Fields) (w : V)
    (h : objToDict g (V.tdo cl gs) = Except.ok w) :
    ∃ g', toDictDeep g' (V.tdo cl gs) = Except.ok w := by
  cases g with
  | zero => simp [objToDict] at h
  | succ g' => exact ⟨g', by simpa [objToDict] using h⟩

theorem toDict_nonoverride (c : PyCls) (fs : Fields)
    (h1 : c ≠ PyCls.polygon) (h2 : c ≠ PyCls.polyline) :
    toDict c fs = Except.ok (V.dict fs) := by
  cases c <;> simp_all [toDict]

theorem processFieldsF_nil (g : Nat) : processFieldsF g [] = Except.ok [] := by
  cases g <;> rfl

theorem processFieldsF_cons_nonlist (g : Nat) (k : String) (v : V)
    (rest rs : Fields) (hnl : ∀ xs, v ≠ V.list xs)
    (h : processFieldsF (g + 1) ((k, v) :: rest) = Except.ok rs) :
    ∃ w tail, objToDict g v = Except.ok w ∧
      processFieldsF g rest = Except.ok tail ∧ rs = (k, w) :: tail := by
  cases v with
  | list xs => exact absurd rfl (hnl xs)
  | null =>
      simp only [processFieldsF] at h
      obtain ⟨w, hw, h⟩ := resBind_ok h
      obtain ⟨tail, htail, h⟩ := resBind_ok h
      exact ⟨w, tail, hw, htail, by simpa using h.symm⟩
  | bool b =>
      simp only [processFieldsF] at h
      obtain ⟨w, hw, h⟩ := resBind_ok h
      obtain ⟨tail, htail, h⟩ := resBind_ok h
      exact ⟨w, tail, hw, htail, by simpa using h.symm⟩
  | int n =>
      simp only [processFieldsF] at h
      obtain ⟨w, hw, h⟩ := resBind_ok h
      obtain ⟨tail, htail, h⟩ := resBind_ok h
      exact ⟨w, tail, hw, htail, by simpa using h.symm⟩
  | str s =>
      simp only [processFieldsF] at h
      obtain ⟨w, hw, h⟩ := resBind_ok h
      obtain ⟨tail, htail, h⟩ := resBind_ok h
      exact ⟨w, tail, hw, htail, by simpa using h.symm⟩
  | dict gs =>
      simp only [processFieldsF] at h
      obtain ⟨w, hw, h⟩ := resBind_ok h
      obtain ⟨tail, htail, h⟩ := resBind_ok h
      exact ⟨w, tail, hw, htail, by simpa using h.symm⟩
  | tdo cl gs =>
      simp only [processFieldsF] at h
      obtain ⟨w, hw, h⟩ := resBind_ok h
      obtain ⟨tail, htail, h⟩ := resBind_ok h
      exact ⟨w, tail, hw, htail, by simpa using h.symm⟩

theorem processFieldsF_cons_scalar (g : Nat) (k : String) (v : V)
    (rest rs : Fields) (hsc : isScalar v = true)
    (h : processFieldsF (g + 1) ((k, v) :: rest) = Except.ok rs) :
    ∃ tail, processFieldsF g rest = Except.ok tail ∧ rs = (k, v) :: tail := by
  have hnl : ∀ xs, v ≠ V.list xs := by
    intro xs hvv
    rw [hvv] at hsc
    simp [isScalar] at hsc
  obtain ⟨w, tail, hw, htail, hrs⟩ :=
    processFieldsF_cons_nonlist g k v rest rs hnl h
  have hv : ∀ cl gs, v ≠ V.tdo cl gs := by
    intro cl gs hvv
    rw [hvv] at hsc
    simp [isScalar] at hsc
  rw [objToDict_nontdo g v w hv hw] at hrs
  exact ⟨tail, htail, hrs⟩

theorem processFieldsF_cons_tdo (g : Nat) (k : String) (cl : PyCls)
    (gs : Fields) (rest rs : Fields)
    (h : processFieldsF (g + 1) ((k, V.tdo cl gs) :: rest) = Except.ok rs) :
    ∃ g' w tail, toDictDeep g' (V.tdo cl gs) = Except.ok w ∧
      processFieldsF g rest = Except.ok tail ∧ rs = (k, w) :: tail := by
  simp only [processFieldsF] at h
  obtain ⟨w, hw, h⟩ := resBind_ok h
  obtain ⟨tail, htail, h⟩ := resBind_ok h
  obtain ⟨g', hg'⟩ := objToDict_tdo_inv g cl gs w hw
  exact ⟨g', w, tail, hg', htail, by simpa using h.symm⟩

theorem processFieldsF_cons_list (g : Nat) (k : String) (xs : List V)
    (rest rs : Fields)
    (h : processFieldsF (g + 1) ((k, V.list xs) :: rest) = Except.ok rs) :
    ∃ ys tail, objToDictListF g xs = Except.ok ys ∧
      processFieldsF g rest = Except.ok tail ∧
      rs = (k, V.list ys) :: tail := by
  simp only [processFieldsF] at h
  obtain ⟨w, hw, h⟩ := resBind_ok h
  obtain ⟨y, hy, h⟩ := resBind_ok h
  obtain ⟨tail, htail, h⟩ := resBind_ok h
  have hyv : y = V.list w := by simpa using hy.symm
  refine ⟨w, tail, hw, htail, ?_⟩
  rw [hyv] at h
  simpa using h.symm

theorem processFieldsF_scalars (fs : Fields) :
    ∀ (g : Nat) (rs : Fields), (∀ kv ∈ fs, isScalar kv.2 = true) →
      processFieldsF g fs = Except.ok rs → rs = fs := by
  induction fs with
  | nil =>
      intro g rs _ h
      rw [processFieldsF_nil] at h
      simpa using h.symm
  | cons kv rest ih =>
      intro g rs hsc h
      obtain ⟨k, v⟩ := kv
      cases g with
      | zero => simp [processFieldsF] at h
      | succ g' =>
          obtain ⟨tail, htail, hrs⟩ := processFieldsF_cons_scalar g' k v rest
            rs (hsc (k, v) (by simp)) h
          rw [hrs, ih g' tail (fun x hx => hsc x (by simp [hx])) htail]

theorem toDictDeep_fields_inv (g : Nat) (c : PyCls) (fs : Fields) (r : V)
    (h1 : c ≠ PyCls.polygon) (h2 : c ≠ PyCls.polyline)
    (h : toDictDeep g (V.tdo c fs) = Except.ok r) :
    ∃ (g' : Nat) (rs : Fields),
      processFieldsF g' fs = Except.ok rs ∧ r = V.dict rs := by
  cases g with
  | zero => simp [toDictDeep] at h
  | succ g' =>
      simp only [toDictDeep, toDict_nonoverride c fs h1 h2, ok_bind] at h
      obtain ⟨rs, hrs, h⟩ := resBind_ok h
      exact ⟨g', rs, hrs, by simpa using h.symm⟩

theorem toDictDeep_scalars (g : Nat) (c : PyCls) (fs : Fields) (r : V)
    (h1 : c ≠ PyCls.polygon) (h2 : c ≠ PyCls.polyline)
    (hsc : ∀ kv ∈ fs, isScalar kv.2 = true)
    (h : toDictDeep g (V.tdo c fs) = Except.ok r) : r = V.dict fs := by
  obtain ⟨g', rs, hrs, hr⟩ := toDictDeep_fields_inv g c fs r h1 h2 h
  rw [hr, processFieldsF_scalars fs g' rs hsc hrs]

theorem objToDictListF_nil (g : Nat) : objToDictListF g [] = Except.ok [] := by
  cases g <;> rfl

theorem objToDictListF_cons_inv (g : Nat) (x : V) (xs ys : List V)
    (h : objToDictListF (g + 1) (x :: xs) = Except.ok ys) :
    ∃ y tail, objToDict g x = Except.ok y ∧
      objToDictListF g xs = Except.ok tail ∧ ys = y :: tail := by
  simp only [objToDictListF] at h
  obtain ⟨y, hy, h⟩ := resBind_ok h
  obtain ⟨tail, htail, h⟩ := resBind_ok h
  exact ⟨y, tail, hy, htail, by simpa using h.symm⟩

/-- A list without typed objects at the top of its elements flattens to
itself. -/
theorem objToDictListF_nontdo (xs : List V) :
    ∀ (g : Nat) (ys : List V),
      (∀ x ∈ xs, ∀ cl gs, x ≠ V.tdo cl gs) →
      objToDictListF g xs = Except.ok ys → ys = xs := by
  induction xs with
  | nil =>
      intro g ys _ h
      rw [objToDictListF_nil] at h
      simpa using h.symm
  | cons x rest ih =>
      intro g ys hx h
      cases g with
      | zero => simp [objToDictListF] at h
      | succ g' =>
          obtain ⟨y, tail, hy, htail, hys⟩ := objToDictListF_cons_inv g' x rest
            ys h
          rw [hys, objToDict_nontdo g' x y (hx x (by simp)) hy,
            ih g' tail (fun z hz => hx z (by simp [hz])) htail]

theorem forallTwo_left_mem {α β : Type} {R : α → β → Prop} :
    ∀ {xs : List α} {ys : List β}, List.Forall₂ R xs ys →
      ∀ x ∈ xs, ∃ y, R x y := by
  intro xs ys h
  induction h with
  | nil => intro x hx; cases hx
  | cons h1 _ ih =>
      intro x hx
      rcases List.mem_cons.mp hx with rfl | hx
      · exact ⟨_, h1⟩
      · exact ih x hx

/-- Flattening one nested typed object whose fields are all scalar
returns its backing dict. -/
theorem objToDict_tdo_scalars (g : Nat) (c : PyCls) (fs : Fields) (y : V)
    (h1 : c ≠ PyCls.polygon) (h2 : c ≠ PyCls.polyline)
    (hsc : ∀ kv ∈ fs, isScalar kv.2 = true)
    (h : objToDict g (V.tdo c fs) = Except.ok y) : y = V.dict fs := by
  obtain ⟨g', hg'⟩ := objToDict_tdo_inv g c fs y h
  exact toDictDeep_scalars g' c fs y h1 h2 hsc hg'

/-- Mapping a raw property over the typed sides of a pairing recovers
the raw sides: the accumulator form of List.mapM. -/
theorem mapM_loop_forallTwo {R : V → V → Prop} (F : V → Res V)
    (hF : ∀ x y, R x y → F y = Except.ok x) :
    ∀ {xs ys : List V}, List.Forall₂ R xs ys →
      ∀ acc : List V,
        List.mapM.loop F ys acc = Except.ok (acc.reverse ++ xs) := by
  intro xs ys h
  induction h with
  | nil => intro acc; simp [List.mapM.loop, pure, Except.pure]
  | cons h1 _ ih =>
      intro acc
      simp only [List.mapM.loop, hF _ _ h1, ok_bind]
      rw [ih]
      simp

/-- Mapping a raw property over the typed sides of a pairing recovers
the raw sides. -/
theorem mapM_forallTwo {R : V → V → Prop} (F : V → Res V)
    (hF : ∀ x y, R x y → F y = Except.ok x) :
    ∀ {xs ys : List V}, List.Forall₂ R xs ys →
      ys.mapM F = Except.ok xs := by
  intro xs ys h
  have := mapM_loop_forallTwo F hF h []
  simpa [List.mapM] using this

theorem rawPointR (a b : Int) :
    rawPoint (V.tdo PyCls.point [("x", V.int a), ("y", V.int b)])
      = Except.ok (V.dict [("x", V.int a), ("y", V.int b)]) := by
  simp [rawPoint, lookupF, ok_bind]

theorem rawContourR (pts qs' : List V)
    (hf : List.Forall₂ (fun p w => ∃ a b : Int,
      p = V.dict [("x", V.int a), ("y", V.int b)] ∧
      w = V.tdo PyCls.point [("x", V.int a), ("y", V.int b)]) pts qs') :
    rawContour (V.tdo PyCls.contour [("points", V.list qs')])
      = Except.ok (V.list pts) := by
  have hm : qs'.mapM rawPoint = Except.ok pts :=
    mapM_forallTwo rawPoint (fun x y hxy => by
      obtain ⟨a, b, hx, hy⟩ := hxy
      rw [hx, hy]
      exact rawPointR a b) hf
  have hm2 : List.mapM.loop rawPoint qs' [] = Except.ok pts := by
    simpa [List.mapM] using hm
  simp [rawContour, lookupF, hm, hm2, ok_bind]

theorem rawPathR (pts qs' : List V)
    (hf : List.Forall₂ (fun p w => ∃ a b : Int,
      p = V.dict [("x", V.int a), ("y", V.int b)] ∧
      w = V.tdo PyCls.point [("x", V.int a), ("y", V.int b)]) pts qs') :
    rawPath (V.tdo PyCls.path [("points", V.list qs')])
      = Except.ok (V.list pts) := by
  have hm : qs'.mapM rawPoint = Except.ok pts :=
    mapM_forallTwo rawPoint (fun x y hxy => by
      obtain ⟨a, b, hx, hy⟩ := hxy
      rw [hx, hy]
      exact rawPointR a b) hf
  have hm2 : List.mapM.loop rawPoint qs' [] = Except.ok pts := by
    simpa [List.mapM] using hm
  simp [rawPath, lookupF, hm, hm2, ok_bind]

theorem rawFaceR (cs qs0 : List V)
    (hf : List.Forall₂ (fun cr w => ∃ (pts qs' : List V),
      cr = V.list pts ∧
      w = V.tdo PyCls.contour [("points", V.list qs')] ∧
      List.Forall₂ (fun p u => ∃ a b : Int,
        p = V.dict [("x", V.int a), ("y", V.int b)] ∧
        u = V.tdo PyCls.point [("x", V.int a), ("y", V.int b)]) pts qs')
      cs qs0) :
    rawFace (V.tdo PyCls.face [("contours", V.list qs0)])
      = Except.ok (V.list cs) := by
  have hm : qs0.mapM rawContour = Except.ok cs :=
    mapM_forallTwo rawContour (fun x y hxy => by
      obtain ⟨pts, qs', hx, hy, hff⟩ := hxy
      rw [hx, hy]
      exact rawContourR pts qs' hff) hf
  have hm2 : List.mapM.loop rawContour qs0 [] = Except.ok cs := by
    simpa [List.mapM] using hm
  simp [rawFace, lookupF, hm, hm2, ok_bind]

/-- Deep-flattening a loaded Keypoint recovers its canonical raw
dict. -/
theorem keypointFlatten (g : Nat) (s : String) (a b : Int) (b1 b2 : Bool)
    (r : V)
    (h : toDictDeep g (V.tdo PyCls.keypoint [("name", V.str s),
        ("x", V.int a), ("y", V.int b), ("state", V.tdo PyCls.generic
          [("visible", V.bool b1), ("valid", V.bool b2)])])
      = Except.ok r) :
    r = V.dict [("name", V.str s), ("x", V.int a), ("y", V.int b),
      ("state", V.dict [("visible", V.bool b1), ("valid", V.bool b2)])] := by
  obtain ⟨g', rs, hrs, hr⟩ := toDictDeep_fields_inv g PyCls.keypoint _ r
    (by decide) (by decide) h
  cases g' with
  | zero => simp [processFieldsF] at hrs
  | succ g' =>
      obtain ⟨t1, h1, he1⟩ := processFieldsF_cons_scalar g' "name" (V.str s)
        _ rs rfl hrs
      cases g' with
      | zero => simp [processFieldsF] at h1
      | succ g' =>
          obtain ⟨t2, h2, he2⟩ := processFieldsF_cons_scalar g' "x"
            (V.int a) _ t1 rfl h1
          cases g' with
          | zero => simp [processFieldsF] at h2
          | succ g' =>
              obtain ⟨t3, h3, he3⟩ := processFieldsF_cons_scalar g' "y"
                (V.int b) _ t2 rfl h2
              cases g' with
              | zero => simp [processFieldsF] at h3
              | succ g' =>
                  obtain ⟨g2, w, t4, hw, h4, he4⟩ := processFieldsF_cons_tdo
                    g' "state" PyCls.generic _ _ t3 h3
                  have hw' : w = V.dict [("visible", V.bool b1),
                      ("valid", V.bool b2)] :=
                    toDictDeep_scalars g2 PyCls.generic _ w (by decide)
                      (by decide)
                      (by intro kv hkv; simp at hkv;
                          rcases hkv with rfl | rfl <;> rfl) hw
                  have ht4 : t4 = [] := by
                    rw [processFieldsF_nil] at h4
                    simpa using h4.symm
                  rw [hr, he1, he2, he3, he4, hw', ht4]

/-- Flattening the typed side of a pairing elementwise recovers the
raw side. -/
theorem objToDictListF_pair {R : V → V → Prop}
    (hR : ∀ p q, R p q → ∀ (g : Nat) (y : V),
      objToDict g q = Except.ok y → y = p) :
    ∀ {ps qs : List V}, List.Forall₂ R ps qs →
      ∀ (g : Nat) (ys : List V),
        objToDictListF g qs = Except.ok ys → ys = ps := by
  intro ps qs h
  induction h with
  | nil =>
      intro g ys hy
      rw [objToDictListF_nil] at hy
      simpa using hy.symm
  | cons h1 _ ih =>
      intro g ys hy
      cases g with
      | zero => simp [objToDictListF] at hy
      | succ g' =>
          obtain ⟨y, tail, hy1, htail, hys⟩ := objToDictListF_cons_inv g' _ _
            ys hy
          rw [hys, hR _ _ h1 g' y hy1, ih g' tail htail]

/-- Deep-flattening a loaded Keypoints recovers its canonical raw
dict. -/
theorem keypointsFlatten (g : Nat) (pts es qs rs : List V) (r : V)
    (hkp : List.Forall₂ (fun p q => ∃ (s : String) (a b : Int)
        (b1 b2 : Bool),
      p = V.dict [("name", V.str s), ("x", V.int a), ("y", V.int b),
        ("state", V.dict [("visible", V.bool b1), ("valid", V.bool b2)])] ∧
      q = V.tdo PyCls.keypoint [("name", V.str s), ("x", V.int a),
        ("y", V.int b), ("state", V.tdo PyCls.generic
          [("visible", V.bool b1), ("valid", V.bool b2)])]) pts qs)
    (hed : List.Forall₂ (fun p q => ∃ a b : Int,
      p = V.dict [("x", V.int a), ("y", V.int b)] ∧
      q = V.tdo PyCls.edge [("x", V.int a), ("y", V.int b)]) es rs)
    (h : toDictDeep g (V.tdo PyCls.keypoints
        [("points", V.list qs), ("edges", V.list rs)]) = Except.ok r) :
    r = V.dict [("points", V.list pts), ("edges", V.list es)] := by
  obtain ⟨g', fs2, hfs2, hr⟩ := toDictDeep_fields_inv g PyCls.keypoints _ r
    (by decide) (by decide) h
  cases g' with
  | zero => simp [processFieldsF] at hfs2
  | succ g' =>
      obtain ⟨ys, t1, hys, h1, he1⟩ := processFieldsF_cons_list g' "points"
        qs _ fs2 hfs2
      have hys' : ys = pts := by
        refine objToDictListF_pair ?_ hkp g' ys hys
        intro p q hpq g2 y hy
        obtain ⟨s, a, b, b1, b2, hp, hq⟩ := hpq
        rw [hq] at hy
        obtain ⟨g3, hg3⟩ := objToDict_tdo_inv g2 _ _ y hy
        rw [hp]
        exact keypointFlatten g3 s a b b1 b2 y hg3
      cases g' with
      | zero => simp [processFieldsF] at h1
      | succ g' =>
          obtain ⟨zs, t2, hzs, h2, he2⟩ := processFieldsF_cons_list g'
            "edges" rs _ t1 h1
          have hzs' : zs = es := by
            refine objToDictListF_pair ?_ hed g' zs hzs
            intro p q hpq g2 y hy
            obtain ⟨a, b, hp, hq⟩ := hpq
            rw [hq] at hy
            rw [hp]
            exact objToDict_tdo_scalars g2 PyCls.edge _ y (by decide)
              (by decide)
              (by intro kv hkv; simp at hkv; rcases hkv with rfl | rfl <;> rfl)
              hy
          have ht2 : t2 = [] := by
            rw [processFieldsF_nil] at h2
            simpa using h2.symm
          rw [hr, he1, he2, hys', hzs', ht2]

/-- Deep-flattening a loaded Polygon recovers its canonical raw
dict through the overridden to_dict. -/
theorem polygonFlatten (g : Nat) (faces qs : List V) (r : V)
    (hfc : List.Forall₂ (fun fr q => ∃ (cs qs0 : List V),
      fr = V.list cs ∧
      q = V.tdo PyCls.face [("contours", V.list qs0)] ∧
      List.Forall₂ (fun cr w => ∃ (pts qs' : List V),
        cr = V.list pts ∧
        w = V.tdo PyCls.contour [("points", V.list qs')] ∧
        List.Forall₂ (fun p u => ∃ a b : Int,
          p = V.dict [("x", V.int a), ("y", V.int b)] ∧
          u = V.tdo PyCls.point [("x", V.int a), ("y", V.int b)]) pts qs')
        cs qs0) faces qs)
    (h : toDictDeep g (V.tdo PyCls.polygon [("faces", V.list qs)])
      = Except.ok r) :
    r = V.dict [("points", V.list faces)] := by
  have hm : qs.mapM rawFace = Except.ok faces :=
    mapM_forallTwo rawFace (fun x y hxy => by
      obtain ⟨cs, qs0, hx, hy, hff⟩ := hxy
      rw [hx, hy]
      exact rawFaceR cs qs0 hff) hfc
  cases g with
  | zero => simp [toDictDeep] at h
  | succ g' =>
      have hm2 : List.mapM.loop rawFace qs [] = Except.ok faces := by
        simpa [List.mapM] using hm
      have hraw : toDict PyCls.polygon [("faces", V.list qs)]
          = Except.ok (V.dict [("points", V.list faces)]) := by
        simp [toDict, rawPolygon, lookupF, hm, hm2, ok_bind]
      simp only [toDictDeep, hraw, ok_bind] at h
      obtain ⟨rs2, hrs2, h⟩ := resBind_ok h
      have hr : r = V.dict rs2 := by simpa using h.symm
      cases g' with
      | zero => simp [processFieldsF] at hrs2
      | succ g' =>
          obtain ⟨ys, t1, hys, h1, he1⟩ := processFieldsF_cons_list g'
            "points" faces _ rs2 hrs2
          have hys' : ys = faces := by
            refine objToDictListF_nontdo faces g' ys ?_ hys
            intro x hx cl gs hxx
            obtain ⟨q, hrel⟩ := forallTwo_left_mem hfc x hx
            obtain ⟨cs, qs0, hx', _, _⟩ := hrel
            rw [hx'] at hxx
            cases hxx
          have ht1 : t1 = [] := by
            rw [processFieldsF_nil] at h1
            simpa using h1.symm
          rw [hr, he1, hys', ht1]

/-- Deep-flattening a loaded Polyline recovers its canonical raw
dict through the overridden to_dict. -/
theorem polylineFlatten (g : Nat) (paths qs : List V) (r : V)
    (hpa : List.Forall₂ (fun cr q => ∃ (pts qs' : List V),
      cr = V.list pts ∧
      q = V.tdo PyCls.path [("points", V.list qs')] ∧
      List.Forall₂ (fun p w => ∃ a b : Int,
        p = V.dict [("x", V.int a), ("y", V.int b)] ∧
        w = V.tdo PyCls.point [("x", V.int a), ("y", V.int b)]) pts qs')
      paths qs)
    (h : toDictDeep g (V.tdo PyCls.polyline [("paths", V.list qs)])
      = Except.ok r) :
    r = V.dict [("points", V.list paths)] := by
  have hm : qs.mapM rawPath = Except.ok paths :=
    mapM_forallTwo rawPath (fun x y hxy => by
      obtain ⟨pts, qs', hx, hy, hff⟩ := hxy
      rw [hx, hy]
      exact rawPathR pts qs' hff) hpa
  cases g with
  | zero => simp [toDictDeep] at h
  | succ g' =>
      have hm2 : List.mapM.loop rawPath qs [] = Except.ok paths := by
        simpa [List.mapM] using hm
      have hraw : toDict PyCls.polyline [("paths", V.list qs)]
          = Except.ok (V.dict [("points", V.list paths)]) := by
        simp [toDict, rawPolyline, lookupF, hm, hm2, ok_bind]
      simp only [toDictDeep, hraw, ok_bind] at h
      obtain ⟨rs2, hrs2, h⟩ := resBind_ok h
      have hr : r = V.dict rs2 := by simpa using h.symm
      cases g' with
      | zero => simp [processFieldsF] at hrs2
      | succ g' =>
          obtain ⟨ys, t1, hys, h1, he1⟩ := processFieldsF_cons_list g'
            "points" paths _ rs2 hrs2
          have hys' : ys = paths := by
            refine objToDictListF_nontdo paths g' ys ?_ hys
            intro x hx cl gs hxx
            obtain ⟨q, hrel⟩ := forallTwo_left_mem hpa x hx
            obtain ⟨pts, qs', hx', _, _⟩ := hrel
            rw [hx'] at hxx
            cases hxx
          have ht1 : t1 = [] := by
            rw [processFieldsF_nil] at h1
            simpa using h1.symm
          rw [hr, he1, hys', ht1]

/-- Deep-flattening a loaded Cuboid2D recovers its canonical raw
dict. -/
theorem cuboidFlatten (g : Nat) (a1 b1 w1 h1 a2 b2 w2 h2 : Int) (r : V)
    (h : toDictDeep g (V.tdo PyCls.cuboid2D
        [("near", V.tdo PyCls.boundingBox [("x", V.int a1), ("y", V.int b1),
          ("width", V.int w1), ("height", V.int h1)]),
         ("far", V.tdo PyCls.boundingBox [("x", V.int a2), ("y", V.int b2),
          ("width", V.int w2), ("height", V.int h2)])]) = Except.ok r) :
    r = V.dict [("near", V.dict [("x", V.int a1), ("y", V.int b1),
        ("width", V.int w1), ("height", V.int h1)]),
      ("far", V.dict [("x", V.int a2), ("y", V.int b2),
        ("width", V.int w2), ("height", V.int h2)])] := by
  obtain ⟨g', rs, hrs, hr⟩ := toDictDeep_fields_inv g PyCls.cuboid2D _ r
    (by decide) (by decide) h
  cases g' with
  | zero => simp [processFieldsF] at hrs
  | succ g' =>
      obtain ⟨g2, u1, t1, hu1, hp1, he1⟩ := processFieldsF_cons_tdo g'
        "near" PyCls.boundingBox _ _ rs hrs
      have hu1' : u1 = V.dict [("x", V.int a1), ("y", V.int b1),
          ("width", V.int w1), ("height", V.int h1)] :=
        toDictDeep_scalars g2 PyCls.boundingBox _ u1 (by decide) (by decide)
          (by intro kv hkv; simp at hkv;
              rcases hkv with rfl | rfl | rfl | rfl <;> rfl) hu1
      cases g' with
      | zero => simp [processFieldsF] at hp1
      | succ g' =>
          obtain ⟨g3, u2, t2, hu2, hp2, he2⟩ := processFieldsF_cons_tdo g'
            "far" PyCls.boundingBox _ _ t1 hp1
          have hu2' : u2 = V.dict [("x", V.int a2), ("y", V.int b2),
              ("width", V.int w2), ("height", V.int h2)] :=
            toDictDeep_scalars g3 PyCls.boundingBox _ u2 (by decide)
              (by decide)
              (by intro kv hkv; simp at hkv;
                  rcases hkv with rfl | rfl | rfl | rfl <;> rfl) hu2
          have ht2 : t2 = [] := by
            rw [processFieldsF_nil] at hp2
            simpa using hp2.symm
          rw [hr, he1, he2, hu1', hu2', ht2]

/-- C5, witness. -/
theorem discriminator_correctness_witness :
    ∃ gs, lookupF
        [("annotation_class", V.str "person"),
         ("annotation_type", V.str "box"),
         ("annotation_value", V.tdo PyCls.boundingBox
            [("x", V.int 1), ("y", V.int 2),
             ("width", V.int 3), ("height", V.int 4)]),
         ("metadata", V.tdo PyCls.generic [])]
        "annotation_value" = some (V.tdo PyCls.boundingBox gs) :=
  discriminator_correctness.2.2.2 30
    [("annotation_class", V.str "person"),
     ("annotation_type", V.str "box"),
     ("annotation_value", V.dict
        [("x", V.int 1), ("y", V.int 2),
         ("width", V.int 3), ("height", V.int 4)]),
     ("metadata", V.dict [])]
    [("annotation_class", V.str "person"),
     ("annotation_type", V.str "box"),
     ("annotation_value", V.tdo PyCls.boundingBox
        [("x", V.int 1), ("y", V.int 2),
         ("width", V.int 3), ("height", V.int 4)]),
     ("metadata", V.tdo PyCls.generic [])]
    "box" PyCls.boundingBox rfl rfl rfl rfl

/-- C1 (amended): for every annotation-geometry variant (box, rbox,
category, cuboid2d, keypoint, polygon, polyline) and every raw payload
of its documented canonical form, constructing the typed object with
cls(raw_data=d) — the construction the materializer performs for
annotation values — and deep-flattening it with to_dict_deep returns
exactly the original payload.  The unrestricted claim over every raw
payload is refuted by the counterexample below. -/
theorem annotation_geometry_roundtrip :
    (∀ (f g : Nat) (d v r : V), wfBoxRaw d →
      constructRaw f PyCls.boundingBox d = Except.ok v →
      toDictDeep g v = Except.ok r → r = d) ∧
    (∀ (f g : Nat) (d v r : V), wfRBoxRaw d →
      constructRaw f PyCls.rotatedBox d = Except.ok v →
      toDictDeep g v = Except.ok r → r = d) ∧
    (∀ (f g : Nat) (d v r : V), wfCategoryRaw d →
      constructRaw f PyCls.category d = Except.ok v →
      toDictDeep g v = Except.ok r → r = d) ∧
    (∀ (f g : Nat) (d v r : V), wfCuboidRaw d →
      constructRaw f PyCls.cuboid2D d = Except.ok v →
      toDictDeep g v = Except.ok r → r = d) ∧
    (∀ (f g : Nat) (d v r : V), wfKeypointsRaw d →
      constructRaw f PyCls.keypoints d = Except.ok v →
      toDictDeep g v = Except.ok r → r = d) ∧
    (∀ (f g : Nat) (d v r : V), wfPolygonRaw d →
      constructRaw f PyCls.polygon d = Except.ok v →
      toDictDeep g v = Except.ok r → r = d) ∧
    (∀ (f g : Nat) (d v r : V), wfPolylineRaw d →
      constructRaw f PyCls.polyline d = Except.ok v →
      toDictDeep g v = Except.ok r → r = d) := by
  refine ⟨?_, ?_, ?_, ?_, ?_, ?_, ?_⟩
  · intro f g d v r hwf hc hf
    obtain ⟨a, b, w0, h0, rfl⟩ := hwf
    rw [boxChar f a b w0 h0 v hc] at hf
    exact toDictDeep_scalars g PyCls.boundingBox _ r (by decide) (by decide)
      (by intro kv hkv; simp at hkv;
          rcases hkv with rfl | rfl | rfl | rfl <;> rfl) hf
  · intro f g d v r hwf hc hf
    obtain ⟨a, b, w0, h0, g0, rfl⟩ := hwf
    rw [rboxChar f a b w0 h0 g0 v hc] at hf
    exact toDictDeep_scalars g PyCls.rotatedBox _ r (by decide) (by decide)
      (by intro kv hkv; simp at hkv;
          rcases hkv with rfl | rfl | rfl | rfl | rfl <;> rfl) hf
  · intro f g d v r hwf hc hf
    obtain ⟨w0, hsc, rfl⟩ := hwf
    rw [categoryChar f w0 hsc v hc] at hf
    exact toDictDeep_scalars g PyCls.category _ r (by decide) (by decide)
      (by intro kv hkv; simp at hkv; rcases hkv with rfl; simpa using hsc)
      hf
  · intro f g d v r hwf hc hf
    obtain ⟨nb, fb, hnb, hfb, rfl⟩ := hwf
    obtain ⟨a1, b1, w1, h1, rfl⟩ := hnb
    obtain ⟨a2, b2, w2, h2, rfl⟩ := hfb
    rw [cuboidChar f a1 b1 w1 h1 a2 b2 w2 h2 v hc] at hf
    exact cuboidFlatten g a1 b1 w1 h1 a2 b2 w2 h2 r hf
  · intro f g d v r hwf hc hf
    obtain ⟨pts, es, hpts, hes, rfl⟩ := hwf
    obtain ⟨qs, rs, hv, hkp, hed⟩ := keypointsChar f pts es v hpts hes hc
    rw [hv] at hf
    exact keypointsFlatten g pts es qs rs r hkp hed hf
  · intro f g d v r hwf hc hf
    obtain ⟨faces, hfaces, rfl⟩ := hwf
    obtain ⟨qs, hv, hfc⟩ := polygonChar f faces v hfaces hc
    rw [hv] at hf
    exact polygonFlatten g faces qs r hfc hf
  · intro f g d v r hwf hc hf
    obtain ⟨paths, hpaths, rfl⟩ := hwf
    obtain ⟨qs, hv, hpa⟩ := polylineChar f paths v hpaths hc
    rw [hv] at hf
    exact polylineFlatten g paths qs r hpa hf

/-- C1, counterexample: the Keypoints docstring's raw example holds a
point entry without x and y keys; constructing Keypoints from that
payload and deep-flattening does not return the original payload even
under Python dict equality, because the loaded keypoint gains x, y and
state parameter keys bound to None. -/
theorem keypoints_docstring_roundtrip_gap :
    (constructRaw 30 PyCls.keypoints
        (V.dict [("points", V.list
            [V.dict [("state", V.dict [("visible", V.bool false),
              ("valid", V.bool false)]), ("name", V.str "nose")]]),
          ("edges", V.list [V.dict [("x", V.int 0), ("y", V.int 1)]])])).bind
      (fun v => (toDictDeep 30 v).map (fun r => pyEq r
        (V.dict [("points", V.list
            [V.dict [("state", V.dict [("visible", V.bool false),
              ("valid", V.bool false)]), ("name", V.str "nose")]]),
          ("edges", V.list [V.dict [("x", V.int 0), ("y", V.int 1)]])])))
      = Except.ok false := by rfl

/-- C1, witness: the round-trip theorem applied to a concrete bounding
box payload. -/
theorem annotation_geometry_roundtrip_witness :
    wfBoxRaw (V.dict [("x", V.int 10), ("y", V.int 20),
      ("width", V.int 30), ("height", V.int 40)]) ∧
    constructRaw 30 PyCls.boundingBox
        (V.dict [("x", V.int 10), ("y", V.int 20),
          ("width", V.int 30), ("height", V.int 40)])
      = Except.ok (V.tdo PyCls.boundingBox [("x", V.int 10),
          ("y", V.int 20), ("width", V.int 30), ("height", V.int 40)]) ∧
    toDictDeep 30 (V.tdo PyCls.boundingBox [("x", V.int 10),
        ("y", V.int 20), ("width", V.int 30), ("height", V.int 40)])
      = Except.ok (V.dict [("x", V.int 10), ("y", V.int 20),
          ("width", V.int 30), ("height", V.int 40)]) ∧
    V.dict [("x", V.int 10), ("y", V.int 20), ("width", V.int 30),
        ("height", V.int 40)]
      = V.dict [("x", V.int 10), ("y", V.int 20), ("width", V.int 30),
        ("height", V.int 40)] :=
  ⟨⟨10, 20, 30, 40, rfl⟩, rfl, rfl,
    annotation_geometry_roundtrip.1 30 30
      (V.dict [("x", V.int 10), ("y", V.int 20), ("width", V.int 30),
        ("height", V.int 40)])
      (V.tdo PyCls.boundingBox [("x", V.int 10), ("y", V.int 20),
        ("width", V.int 30), ("height", V.int 40)])
      (V.dict [("x", V.int 10), ("y", V.int 20), ("width", V.int 30),
        ("height", V.int 40)])
      ⟨10, 20, 30, 40, rfl⟩ rfl rfl⟩

end SpbCurate
